import Mathlib

/-!
Verification of the ridi-router route-generation engine: a shallow embedding
of the graph store, the guided navigator, the weight functions, the
round-trip itinerary generator, the clustering fingerprint and the
pack/unpack serializer, with theorems settling the specification's claims.

Conventions of the embedding:
* machine integers (u8/u32/u64/usize) are `Nat`; the few places where
  wrap-around could matter carry explicit well-formedness bounds;
* `f32` coordinates and distances enter the routing code only through
  comparisons, so they are modelled as exact `Int`/`Rat` values (or, for the
  serializer, as raw 32-bit patterns);
* Rust `HashMap`/`HashSet` are modelled as insertion-ordered association
  lists without duplicate keys, the observable behaviour used by the code;
* fallible code returns `Option`; in-place mutation is explicit state
  passing.
-/

/-! ## Weight results (src/src/router/navigator.rs, `WeightCalcResult`) -/

inductive WeightCalcResult where
  | UseWithWeight (w : Nat)
  | DoNotUse
deriving DecidableEq, Repr

/-! ## Claim C10: `weight_prefer_same_road` (src/src/router/weights.rs 71-98).
In that file a line carries `tags_ref` and `tags_name` directly. -/

structure WLine where
  tagsRef : Option String
  tagsName : Option String
deriving DecidableEq, Repr

structure WSegment where
  line : WLine
deriving DecidableEq, Repr

structure WeightCalcInputW where
  currentForkSegment : WSegment
  route : List WSegment
deriving DecidableEq, Repr

/-- Embedding of `weight_prefer_same_road`: Rust `route.get_segment_last()`
is `route.getLast?` and `map_or(None, f)` is `Option.bind`. -/
def weight_prefer_same_road (input : WeightCalcInputW) : WeightCalcResult :=
  let current_ref := input.route.getLast?.bind fun s => s.line.tagsRef
  let current_name := input.route.getLast?.bind fun s => s.line.tagsName
  let fork_ref := input.currentForkSegment.line.tagsRef
  let fork_name := input.currentForkSegment.line.tagsName
  if current_ref = fork_ref ∨ current_name = fork_name then
    WeightCalcResult.UseWithWeight 80
  else
    WeightCalcResult.UseWithWeight 0

/-- The claim's matching condition, written on its own terms: the previous
segment's line and the fork line agree on the `ref` tag or on the `name`
tag, where both tags of an empty route's missing previous line are absent
and absent equals absent. -/
def sameRoadCondition (input : WeightCalcInputW) : Prop :=
  (match input.route.getLast? with
   | none => input.currentForkSegment.line.tagsRef = none
   | some s => s.line.tagsRef = input.currentForkSegment.line.tagsRef) ∨
  (match input.route.getLast? with
   | none => input.currentForkSegment.line.tagsName = none
   | some s => s.line.tagsName = input.currentForkSegment.line.tagsName)


/-! ## Claim C3: way admissibility (src/src/map_data/graph.rs 426-452 and
src/src/osm_data_reader.rs 21-39). -/

/-- Way tags: a `HashMap<String, String>` modelled as an association list
with unique keys; lookup takes the first matching key. -/
abbrev WayTags := List (String × String)

def tagsGet (tags : WayTags) (key : String) : Option String :=
  (tags.find? fun kv => kv.1 = key).map fun kv => kv.2

structure OsmWay where
  id : Nat
  point_ids : List Nat
  tags : Option WayTags
deriving DecidableEq, Repr

def ALLOWED_HIGHWAY_VALUES : List String :=
  ["motorway", "trunk", "primary", "secondary", "tertiary", "unclassified",
   "residential", "motorway_link", "trunk_link", "primary_link",
   "secondary_link", "tertiary_link", "living_street", "track", "escape",
   "raceway", "road"]

/-- The `service` check of `way_is_ok`: `tags.get("service").is_some()`. -/
def way_service_bad (tags : WayTags) : Bool :=
  (tagsGet tags "service").isSome

/-- The `access` check of `way_is_ok`. -/
def way_access_bad (tags : WayTags) : Bool :=
  match tagsGet tags "access" with
  | some access => access = "no" || access = "private"
  | none => false

/-- The `motor_vehicle` check of `way_is_ok`. -/
def way_motor_vehicle_bad (tags : WayTags) : Bool :=
  match tagsGet tags "motor_vehicle" with
  | some motor_vehicle => motor_vehicle = "private" || motor_vehicle = "no"
  | none => false

def way_motorcycle_yes (tags : WayTags) : Bool :=
  match tagsGet tags "motorcycle" with
  | some v => v = "yes"
  | none => false

/-- The `highway` check of `way_is_ok`. -/
def way_highway_ok (tags : WayTags) : Bool :=
  match tagsGet tags "highway" with
  | some highway =>
    ALLOWED_HIGHWAY_VALUES.contains highway &&
      (highway ≠ "path" || (highway = "path" && way_motorcycle_yes tags))
  | none => false

/-- Embedding of `MapDataGraph::way_is_ok`, with its sequential checks
factored into the helper predicates above. -/
def way_is_ok (osm_way : OsmWay) : Bool :=
  match osm_way.tags with
  | none => false
  | some tags =>
    if way_service_bad tags then false
    else if way_access_bad tags then false
    else if way_motor_vehicle_bad tags then false
    else way_highway_ok tags

/-- The claim's admissibility condition, literally as stated: highway in
the allow-list or `highway=path` with `motorcycle=yes`, and none of the
rejection tags (`service`, `access∈{no,private}`, `motor_vehicle∈{no,
private}`, `motor_vehicle=destination`) set. -/
def wayClaimKept (osm_way : OsmWay) : Prop :=
  ∃ tags, osm_way.tags = some tags ∧
    tagsGet tags "service" = none ∧
    tagsGet tags "access" ≠ some "no" ∧ tagsGet tags "access" ≠ some "private" ∧
    tagsGet tags "motor_vehicle" ≠ some "no" ∧
    tagsGet tags "motor_vehicle" ≠ some "private" ∧
    tagsGet tags "motor_vehicle" ≠ some "destination" ∧
    (∃ highway, tagsGet tags "highway" = some highway ∧
      (highway ∈ ALLOWED_HIGHWAY_VALUES ∨
       (highway = "path" ∧ tagsGet tags "motorcycle" = some "yes")))

/-- The amended admissibility condition: what `way_is_ok` actually keeps.
`path` is not in the allow-list, so `highway=path` is never kept, and
`motor_vehicle=destination` is not rejected here (only the PBF reader's
pre-filter drops it). -/
def wayAmendedKept (osm_way : OsmWay) : Prop :=
  ∃ tags, osm_way.tags = some tags ∧
    tagsGet tags "service" = none ∧
    tagsGet tags "access" ≠ some "no" ∧ tagsGet tags "access" ≠ some "private" ∧
    tagsGet tags "motor_vehicle" ≠ some "no" ∧
    tagsGet tags "motor_vehicle" ≠ some "private" ∧
    (∃ highway, tagsGet tags "highway" = some highway ∧
      highway ∈ ALLOWED_HIGHWAY_VALUES)

/-- A way tagged `highway=path, motorcycle=yes`: the claim says it is kept. -/
def wayPathMotorcycle : OsmWay :=
  { id := 1, point_ids := [],
    tags := some [("highway", "path"), ("motorcycle", "yes")] }

/-- A way tagged `highway=primary, motor_vehicle=destination`: the claim
says it is rejected. -/
def wayMvDestination : OsmWay :=
  { id := 2, point_ids := [],
    tags := some [("highway", "primary"), ("motor_vehicle", "destination")] }

/-! ## Claim C8: clustering fingerprint (src/src/router/clustering.rs 15-47). -/

def APPROXIMATION_POINTS : Nat := 10

/-- Modelled from the spec: `Route::get_route_chunk(from, to)` (route.rs is
not among the staged sources; the walker/route component slices the segment
list) returns the segments with indices in `[from, to)`. -/
def get_route_chunk (route : List α) (start stop : Nat) : List α :=
  (route.take stop).drop start

/-- The chunk boundary `(step as f32 * points_in_step) as usize` with
`points_in_step = segment_count as f32 / 10.0`, modelled with exact
arithmetic as `⌊step * count / 10⌋ = (step * count) / 10` in `Nat`. The two
computations agree only while the `f32` rounding cannot carry the product
past an integer: exhaustive emulation of the `f32` expression puts the
first divergence at `count = 3495258`, `step = 6` (code boundary 2097155
against exact 2097154), and from `count = 10485763` the final boundary no
longer equals `count`. Every universal statement below built on this model
therefore carries the hypothesis `count ≤ 2 ^ 21 = 2097152`, comfortably
inside the verified agreement range; for the concrete counterexample
(count 15) the values `1.5`, `3.0`, `4.5`, ... are exactly representable
in `f32` and the two computations coincide outright. -/
def chunk_bound (count step : Nat) : Nat := (step * count) / 10

/-- One route's fingerprint: for each of the 10 steps, the mean (lat, lon)
of the chunk's segment end-points, as in `Clustering::generate`.
Coordinates are `ℚ` pairs; an empty chunk's `0 / 0` is `0` in `ℚ` where
Rust produces NaN — no claim below depends on that value. -/
def approximate_route (route : List (ℚ × ℚ)) : List (ℚ × ℚ) :=
  (List.range APPROXIMATION_POINTS).map fun step =>
    let chunk := get_route_chunk route (chunk_bound route.length step)
      (chunk_bound route.length (step + 1))
    let sum_point := chunk.foldl (fun acc el => (acc.1 + el.1, acc.2 + el.2)) (0, 0)
    (sum_point.1 / chunk.length, sum_point.2 / chunk.length)

/-- Embedding of `Clustering::generate`'s fingerprint construction: one
fingerprint per route with at least one segment (the HDBSCAN call that then
consumes the fingerprints is an external library). -/
def clustering_fingerprints (routes : List (List (ℚ × ℚ))) : List (List (ℚ × ℚ)) :=
  (routes.filter fun r => 0 < r.length).map approximate_route

/-- The flattened fingerprint, as `points` receives it in
`Clustering::generate` (`as_flattened().to_vec()`). -/
def fingerprint_floats (route : List (ℚ × ℚ)) : List ℚ :=
  (approximate_route route).flatMap fun p => [p.1, p.2]

/-- A route of 15 segments at distinct coordinates. -/
def routeFifteen : List (ℚ × ℚ) := (List.range 15).map fun i => ((i : ℚ), (i : ℚ))

/-! ## Claim C7: round-trip itinerary generation
(src/src/router/generator.rs 76-147). -/

def ROUND_TRIP_TIP_DISTANCE_RATIOS : List ℚ :=
  [1/2, 9/20, 2/5, 7/20, 3/10, 1/4, 1/5, 3/20, 1/10, 1/20]

def ROUND_TRIP_SIDES_DISTANCE_RATIOS : List ℚ := [9/10, 7/10, 1/2, 1/5, 1/10]

def ROUND_TRIP_BEARING_VARIATION : List ℚ := [-20, -10, 0, 10, 20]

/-- A geographic position (`geo::Point`), modelled as a `ℚ` pair. -/
abbrev GeoPoint := ℚ × ℚ

/-- The bearing passed to `Haversine::destination` for the tip waypoint:
`bearing + bearing_variation`. -/
def rt_tip_bearing (bearing variation : ℚ) : ℚ := bearing + variation

/-- The bearing for the left side waypoint:
`bearing + bearing_variation - 45`. -/
def rt_side_left_bearing (bearing variation : ℚ) : ℚ := bearing + variation - 45

/-- The bearing for the right side waypoint as the source computes it:
also `bearing + bearing_variation - 45` (the same expression the left side
uses). -/
def rt_side_right_bearing (bearing variation : ℚ) : ℚ := bearing + variation - 45

/-- The three `Haversine::destination` argument pairs of one round-trip
variation, with the `tot_dist` running subtraction of the source: returns
((tip bearing, tip distance), (side-left bearing, side-left distance),
(side-right bearing, side-right distance)). -/
def rt_destination_calls (bearing variation distance tip_ratio side_left_ratio : ℚ) :
    (ℚ × ℚ) × (ℚ × ℚ) × (ℚ × ℚ) :=
  let tot_dist0 := distance
  let tip := (rt_tip_bearing bearing variation, tot_dist0 * tip_ratio)
  let tot_dist1 := tot_dist0 - tot_dist0 * tip_ratio
  let side_left := (rt_side_left_bearing bearing variation, tot_dist1 * side_left_ratio)
  let tot_dist2 := tot_dist1 - tot_dist1 * side_left_ratio
  let side_right := (rt_side_right_bearing bearing variation, tot_dist2)
  (tip, side_left, side_right)

structure RTItinerary where
  start : Nat
  finish : Nat
  waypoints : List Nat
  waypoint_radius : ℚ
deriving DecidableEq, Repr

/-- Embedding of the round-trip branch of `Generator::generate_itineraries`.
`dest` abstracts `Haversine::destination` (a position computed from a start
position, a bearing and a distance) and `closest` abstracts the
closest-point lookup; both are collaborators of this code path. -/
def generate_itineraries_round_trip (dest : GeoPoint → ℚ → ℚ → GeoPoint)
    (closest : GeoPoint → Option Nat) (start finish : Nat) (start_geo : GeoPoint)
    (bearing distance : ℚ) : List RTItinerary :=
  (ROUND_TRIP_SIDES_DISTANCE_RATIOS.map fun side_left_ratio =>
    (ROUND_TRIP_TIP_DISTANCE_RATIOS.map fun tip_ratio =>
      ROUND_TRIP_BEARING_VARIATION.filterMap fun bearing_variation =>
        let calls := rt_destination_calls bearing bearing_variation distance
          tip_ratio side_left_ratio
        let tip_geo := dest start_geo calls.1.1 calls.1.2
        match closest tip_geo with
        | none => none
        | some tip_point =>
          let side_left_geo := dest start_geo calls.2.1.1 calls.2.1.2
          match closest side_left_geo with
          | none => none
          | some side_left_point =>
            let side_right_geo := dest start_geo calls.2.2.1 calls.2.2.2
            match closest side_right_geo with
            | none => none
            | some side_right_point =>
              some { start := start, finish := finish,
                     waypoints := [side_left_point, tip_point, side_right_point],
                     waypoint_radius := 5 }).flatten).flatten

/-! ## Claim C5: closest-point query (src/src/map_data/graph.rs 646-747). -/

inductive RulesTagValueAction where
  | Avoid
  | Priority (value : Nat)
deriving DecidableEq, Repr

/-- The three per-tag rule maps of `RouterRules` that
`get_closest_to_coords` reads (the `basic` and `generation` sub-records are
not consulted by this query). A `HashMap` is an association list. -/
structure RouterRulesTags where
  highway : Option (List (String × RulesTagValueAction))
  surface : Option (List (String × RulesTagValueAction))
  smoothness : Option (List (String × RulesTagValueAction))
deriving DecidableEq, Repr

/-- Embedding of `MapDataGraph::get_avoid_rules`: the set of
`"highway:v"` / `"surface:v"` / `"smoothness:v"` strings whose action is
`Avoid` (a `HashSet` used only through `contains`, modelled as a list). -/
def get_avoid_rules (rules : RouterRulesTags) : List String :=
  (match rules.highway with
   | some hw => (hw.filter fun kv => kv.2 = RulesTagValueAction.Avoid).map
       fun kv => "highway:" ++ kv.1
   | none => []) ++
  (match rules.surface with
   | some surface => (surface.filter fun kv => kv.2 = RulesTagValueAction.Avoid).map
       fun kv => "surface:" ++ kv.1
   | none => []) ++
  (match rules.smoothness with
   | some smoothness => (smoothness.filter fun kv => kv.2 = RulesTagValueAction.Avoid).map
       fun kv => "smoothness:" ++ kv.1
   | none => [])

/-- A candidate point's incident line with its borrowed tag-set values (the
tag interning indirection collapsed to the strings it resolves to). -/
structure CLine where
  highway : Option String
  surface : Option String
  smoothness : Option String
deriving DecidableEq, Repr

structure CPoint where
  id : Nat
  lat : ℚ
  lon : ℚ
  residential_in_proximity : Bool
  lines : List CLine
deriving DecidableEq, Repr

/-- The candidate filter closure of `get_closest_to_coords`: drop points
flagged residential when asked to, and points any of whose incident lines
carries an avoided highway/surface/smoothness tag. -/
def closest_candidate_ok (avoid_tags : List String) (avoid_residential : Bool)
    (p : CPoint) : Bool :=
  if avoid_residential && p.residential_in_proximity then false
  else
    let hws := p.lines.filterMap fun line => line.highway.map fun hw => "highway:" ++ hw
    let surfaces := p.lines.filterMap fun line =>
      line.surface.map fun surface => "surface:" ++ surface
    let smoothnesses := p.lines.filterMap fun line =>
      line.smoothness.map fun sm => "smoothness:" ++ sm
    if hws.any (fun tag => avoid_tags.contains tag)
        || surfaces.any (fun tag => avoid_tags.contains tag)
        || smoothnesses.any (fun tag => avoid_tags.contains tag) then false
    else true

/-- One step of a stable ascending insertion sort on (point, distance)
pairs: a new element goes before the first element whose distance is not
smaller. -/
def ordered_insert_dist (x : CPoint × ℚ) : List (CPoint × ℚ) → List (CPoint × ℚ)
  | [] => [x]
  | y :: ys => if x.2 ≤ y.2 then x :: y :: ys else y :: ordered_insert_dist x ys

/-- The `distances.sort_by(...)` call with the three-way `f32` comparator:
Rust's `sort_by` is a stable sort, and for the total preorder the
comparator induces every stable sort returns the same list, so a stable
insertion sort embeds it. -/
def sort_by_distance (l : List (CPoint × ℚ)) : List (CPoint × ℚ) :=
  l.foldr ordered_insert_dist []

/-- Embedding of `MapDataGraph::get_closest_to_coords`. `closest_points`
abstracts the grid call `point_grid.find_closest_point_refs(lat, lon, 20)`
(proximity.rs is not among the staged sources; per the spec it returns the
candidate rings or none), and `hdist` abstracts the `f32` great-circle
distance `Haversine.distance` — only its comparisons are used. The source
builds `geo::Point::new(lon, lat)` for both arguments. -/
def get_closest_to_coords (hdist : GeoPoint → GeoPoint → ℚ)
    (closest_points : Option (List CPoint)) (rules : RouterRulesTags)
    (avoid_proximity_to_residential : Bool) (lat lon : ℚ) : Option CPoint :=
  match closest_points with
  | none => none
  | some pts =>
    let avoid_tags := get_avoid_rules rules
    let distances := (pts.filter fun p =>
        closest_candidate_ok avoid_tags avoid_proximity_to_residential p).map
      fun p => (p, hdist (p.lon, p.lat) (lon, lat))
    (sort_by_distance distances).head?.map fun v => v.1

/-- An element together with the decomposition showing it is the first
entry of the list attaining the minimal distance: everything before it is
strictly farther, nothing anywhere is nearer. -/
def is_first_min (l : List (CPoint × ℚ)) (x : CPoint × ℚ) : Prop :=
  ∃ pre post, l = pre ++ x :: post ∧ (∀ y ∈ pre, x.2 < y.2) ∧ (∀ y ∈ l, x.2 ≤ y.2)

def cpointFive : CPoint :=
  { id := 5, lat := 0, lon := 0, residential_in_proximity := false, lines := [] }

def cpointThree : CPoint :=
  { id := 3, lat := 0, lon := 0, residential_in_proximity := false, lines := [] }

def rulesEmptyTags : RouterRulesTags :=
  { highway := none, surface := none, smoothness := none }

/-- A concrete distance function for the tie counterexample. -/
def hdistManhattan (a b : GeoPoint) : ℚ := |a.1 - b.1| + |a.2 - b.2|

/-! ## Claims C6 and C9: the graph store (src/src/map_data/graph.rs).
The structures mirror `MapDataGraph` and its element types: element
references (`MapDataElementRef`, `ElementTagSetRef`, `ElementTagValueRef`)
are the bare indices/positions they wrap, `f32` coordinates are their raw
32-bit patterns (the serializer moves bytes, never arithmetic), and the
`HashMap` members are insertion-ordered association lists. -/

inductive MapDataRuleType where
  | NotAllowed
  | OnlyAllowed
deriving DecidableEq, Repr

/-- `MapDataRule` (map_data/rule.rs, fields as used by graph.rs):
`{from_lines, to_lines, rule_type}` with line references as indices. -/
structure MapDataRule where
  from_lines : List Nat
  to_lines : List Nat
  rule_type : MapDataRuleType
deriving DecidableEq, Repr

/-- `MapDataPoint` with the fields `insert_node` constructs. -/
structure MapDataPoint where
  id : Nat
  lat : Nat
  lon : Nat
  lines : List Nat
  rules : List MapDataRule
  residential_in_proximity : Bool
  nogo_area : Bool
deriving DecidableEq, Repr

inductive LineDirection where
  | BothWays
  | OneWay
  | Roundabout
deriving DecidableEq, Repr

/-- `MapDataLine` (map_data/line.rs): endpoint references, direction and a
tag-set reference. -/
structure MapDataLine where
  point1 : Nat
  point2 : Nat
  direction : LineDirection
  tags : Nat
deriving DecidableEq, Repr

/-- `ElementTagSet`: five `ElementTagValueRef` slots, each a `u32`
position where `0` means absent and `i + 1` points at `tag_values[i]`. -/
structure ElementTagSet where
  name : Nat
  hw_ref : Nat
  highway : Nat
  surface : Nat
  smoothness : Nat
deriving DecidableEq, Repr

/-- `ElementTags`: the interning table with its two builder maps (all four
fields are serialized). -/
structure ElementTags where
  tag_values : List String
  tag_sets : List ElementTagSet
  tag_map : List (String × Nat)
  tag_set_map : List (ElementTagSet × Nat)
deriving DecidableEq, Repr

/-- Modelled from the spec: the proximity grid `PointGrid` (proximity.rs is
not among the staged sources) is a bucketed index from quantized cell keys
to the point references whose coordinates fall in the cell. -/
structure PointGrid where
  cells : List (Nat × List Nat)
deriving DecidableEq, Repr

structure MapDataGraph where
  points : List MapDataPoint
  points_map : List (Nat × Nat)
  point_grid : PointGrid
  ways_lines : List (Nat × List Nat)
  lines : List MapDataLine
  tags : ElementTags
deriving DecidableEq, Repr

/-! ### The binary encoder: bincode's default format — fixed-width
little-endian integers (`usize` as `u64`, enum variants as `u32` tags),
`u64` length-prefixed sequences. Bytes are `Nat` values below 256. -/

def encFixed : Nat → Nat → List Nat
  | 0, _ => []
  | w + 1, n => n % 256 :: encFixed w (n / 256)

def decFixed : Nat → List Nat → Option (Nat × List Nat)
  | 0, bs => some (0, bs)
  | _ + 1, [] => none
  | w + 1, b :: bs => (decFixed w bs).map fun v => (b + 256 * v.1, v.2)

def encBool (b : Bool) : List Nat := [if b then 1 else 0]

def decBool : List Nat → Option (Bool × List Nat)
  | [] => none
  | b :: bs => if b = 1 then some (true, bs) else if b = 0 then some (false, bs) else none

def encListWith (enc : α → List Nat) (l : List α) : List Nat :=
  encFixed 8 l.length ++ (l.map enc).flatten

def decListWithN (dec : List Nat → Option (α × List Nat)) :
    Nat → List Nat → Option (List α × List Nat)
  | 0, bs => some ([], bs)
  | n + 1, bs =>
    match dec bs with
    | none => none
    | some (a, bs1) =>
      match decListWithN dec n bs1 with
      | none => none
      | some (as, bs2) => some (a :: as, bs2)

def decListWith (dec : List Nat → Option (α × List Nat)) (bs : List Nat) :
    Option (List α × List Nat) :=
  match decFixed 8 bs with
  | none => none
  | some (n, bs1) => decListWithN dec n bs1

def encPairWith (encA : α → List Nat) (encB : β → List Nat) (x : α × β) : List Nat :=
  encA x.1 ++ encB x.2

def decPairWith (decA : List Nat → Option (α × List Nat))
    (decB : List Nat → Option (β × List Nat)) (bs : List Nat) :
    Option ((α × β) × List Nat) :=
  match decA bs with
  | none => none
  | some (a, bs1) =>
    match decB bs1 with
    | none => none
    | some (b, bs2) => some ((a, b), bs2)

/-- A character as its 32-bit unicode scalar value, the width bincode gives
`char`. -/
def encChar (c : Char) : List Nat := encFixed 4 c.toNat

def decChar (bs : List Nat) : Option (Char × List Nat) :=
  match decFixed 4 bs with
  | none => none
  | some (n, bs1) => if Nat.isValidChar n then some (Char.ofNat n, bs1) else none

def encString (s : String) : List Nat := encListWith encChar s.data

def decString (bs : List Nat) : Option (String × List Nat) :=
  (decListWith decChar bs).map fun v => (String.mk v.1, v.2)

def encRuleType : MapDataRuleType → List Nat
  | MapDataRuleType.NotAllowed => encFixed 4 0
  | MapDataRuleType.OnlyAllowed => encFixed 4 1

def decRuleType (bs : List Nat) : Option (MapDataRuleType × List Nat) :=
  match decFixed 4 bs with
  | some (0, rest) => some (MapDataRuleType.NotAllowed, rest)
  | some (1, rest) => some (MapDataRuleType.OnlyAllowed, rest)
  | _ => none

def encDirection : LineDirection → List Nat
  | LineDirection.BothWays => encFixed 4 0
  | LineDirection.OneWay => encFixed 4 1
  | LineDirection.Roundabout => encFixed 4 2

def decDirection (bs : List Nat) : Option (LineDirection × List Nat) :=
  match decFixed 4 bs with
  | some (0, rest) => some (LineDirection.BothWays, rest)
  | some (1, rest) => some (LineDirection.OneWay, rest)
  | some (2, rest) => some (LineDirection.Roundabout, rest)
  | _ => none

def encRule (r : MapDataRule) : List Nat :=
  encListWith (encFixed 8) r.from_lines ++ encListWith (encFixed 8) r.to_lines ++
    encRuleType r.rule_type

def decRule (bs : List Nat) : Option (MapDataRule × List Nat) :=
  match decListWith (decFixed 8) bs with
  | none => none
  | some (from_lines, bs1) =>
    match decListWith (decFixed 8) bs1 with
    | none => none
    | some (to_lines, bs2) =>
      match decRuleType bs2 with
      | none => none
      | some (rule_type, bs3) =>
        some ({ from_lines := from_lines, to_lines := to_lines,
                rule_type := rule_type }, bs3)

def encPoint (p : MapDataPoint) : List Nat :=
  encFixed 8 p.id ++ encFixed 4 p.lat ++ encFixed 4 p.lon ++
    encListWith (encFixed 8) p.lines ++ encListWith encRule p.rules ++
    encBool p.residential_in_proximity ++ encBool p.nogo_area

def decPoint (bs : List Nat) : Option (MapDataPoint × List Nat) :=
  match decFixed 8 bs with
  | none => none
  | some (id, bs1) =>
    match decFixed 4 bs1 with
    | none => none
    | some (lat, bs2) =>
      match decFixed 4 bs2 with
      | none => none
      | some (lon, bs3) =>
        match decListWith (decFixed 8) bs3 with
        | none => none
        | some (lines, bs4) =>
          match decListWith decRule bs4 with
          | none => none
          | some (rules, bs5) =>
            match decBool bs5 with
            | none => none
            | some (residential, bs6) =>
              match decBool bs6 with
              | none => none
              | some (nogo, bs7) =>
                some ({ id := id, lat := lat, lon := lon, lines := lines,
                        rules := rules, residential_in_proximity := residential,
                        nogo_area := nogo }, bs7)

def encLine (l : MapDataLine) : List Nat :=
  encFixed 8 l.point1 ++ encFixed 8 l.point2 ++ encDirection l.direction ++
    encFixed 4 l.tags

def decLine (bs : List Nat) : Option (MapDataLine × List Nat) :=
  match decFixed 8 bs with
  | none => none
  | some (point1, bs1) =>
    match decFixed 8 bs1 with
    | none => none
    | some (point2, bs2) =>
      match decDirection bs2 with
      | none => none
      | some (direction, bs3) =>
        match decFixed 4 bs3 with
        | none => none
        | some (tags, bs4) =>
          some ({ point1 := point1, point2 := point2, direction := direction,
                  tags := tags }, bs4)

def encTagSet (t : ElementTagSet) : List Nat :=
  encFixed 4 t.name ++ encFixed 4 t.hw_ref ++ encFixed 4 t.highway ++
    encFixed 4 t.surface ++ encFixed 4 t.smoothness

def decTagSet (bs : List Nat) : Option (ElementTagSet × List Nat) :=
  match decFixed 4 bs with
  | none => none
  | some (name, bs1) =>
    match decFixed 4 bs1 with
    | none => none
    | some (hw_ref, bs2) =>
      match decFixed 4 bs2 with
      | none => none
      | some (highway, bs3) =>
        match decFixed 4 bs3 with
        | none => none
        | some (surface, bs4) =>
          match decFixed 4 bs4 with
          | none => none
          | some (smoothness, bs5) =>
            some ({ name := name, hw_ref := hw_ref, highway := highway,
                    surface := surface, smoothness := smoothness }, bs5)

def encTags (t : ElementTags) : List Nat :=
  encListWith encString t.tag_values ++ encListWith encTagSet t.tag_sets ++
    encListWith (encPairWith encString (encFixed 4)) t.tag_map ++
    encListWith (encPairWith encTagSet (encFixed 4)) t.tag_set_map

def decTags (bs : List Nat) : Option (ElementTags × List Nat) :=
  match decListWith decString bs with
  | none => none
  | some (tag_values, bs1) =>
    match decListWith decTagSet bs1 with
    | none => none
    | some (tag_sets, bs2) =>
      match decListWith (decPairWith decString (decFixed 4)) bs2 with
      | none => none
      | some (tag_map, bs3) =>
        match decListWith (decPairWith decTagSet (decFixed 4)) bs3 with
        | none => none
        | some (tag_set_map, bs4) =>
          some ({ tag_values := tag_values, tag_sets := tag_sets,
                  tag_map := tag_map, tag_set_map := tag_set_map }, bs4)

def encGrid (g : PointGrid) : List Nat :=
  encListWith (encPairWith (encFixed 8) (encListWith (encFixed 8))) g.cells

def decGrid (bs : List Nat) : Option (PointGrid × List Nat) :=
  (decListWith (decPairWith (decFixed 8) (decListWith (decFixed 8))) bs).map
    fun v => (PointGrid.mk v.1, v.2)

/-- The four packed blobs (`MapDataGraphPacked`). -/
structure MapDataGraphPacked where
  points : List Nat
  lines : List Nat
  tags : List Nat
  point_grid : List Nat
deriving DecidableEq, Repr

/-- Embedding of `MapDataGraph::pack`: the four components serialized
independently (concurrently in the source; the blobs do not interact). -/
def pack (g : MapDataGraph) : MapDataGraphPacked :=
  { points := encListWith encPoint g.points,
    lines := encListWith encLine g.lines,
    tags := encTags g.tags,
    point_grid := encGrid g.point_grid }

/-- Embedding of `MapDataGraph::unpack`: the four blobs deserialized
independently; the builder-only maps `points_map` and `ways_lines` are
installed empty (`HashMap::new()`). -/
def unpack (packed : MapDataGraphPacked) : Option MapDataGraph :=
  match decListWith decPoint packed.points with
  | none => none
  | some (points, _) =>
    match decListWith decLine packed.lines with
    | none => none
    | some (lines, _) =>
      match decTags packed.tags with
      | none => none
      | some (tags, _) =>
        match decGrid packed.point_grid with
        | none => none
        | some (point_grid, _) =>
          some { points := points, points_map := [], point_grid := point_grid,
                 ways_lines := [], lines := lines, tags := tags }

/-! ### Well-formedness: every machine integer within its width, every
sequence shorter than 2^64 — what any graph whose counters are `u32`/`u64`
and whose collections live in memory satisfies. -/

def wfU32 (n : Nat) : Prop := n < 256 ^ 4

def wfU64 (n : Nat) : Prop := n < 256 ^ 8

instance (n : Nat) : Decidable (wfU32 n) := by unfold wfU32; exact inferInstance

instance (n : Nat) : Decidable (wfU64 n) := by unfold wfU64; exact inferInstance

def wfList (l : List α) : Prop := wfU64 l.length

instance (l : List α) : Decidable (wfList l) := by unfold wfList; exact inferInstance

def wfRule (r : MapDataRule) : Prop :=
  (∀ x ∈ r.from_lines, wfU64 x) ∧ wfList r.from_lines ∧
  (∀ x ∈ r.to_lines, wfU64 x) ∧ wfList r.to_lines

instance (r : MapDataRule) : Decidable (wfRule r) := by
  unfold wfRule; exact inferInstance

def wfPoint (p : MapDataPoint) : Prop :=
  wfU64 p.id ∧ wfU32 p.lat ∧ wfU32 p.lon ∧
  (∀ x ∈ p.lines, wfU64 x) ∧ wfList p.lines ∧
  (∀ r ∈ p.rules, wfRule r) ∧ wfList p.rules

instance (p : MapDataPoint) : Decidable (wfPoint p) := by
  unfold wfPoint; exact inferInstance

def wfLine (l : MapDataLine) : Prop :=
  wfU64 l.point1 ∧ wfU64 l.point2 ∧ wfU32 l.tags

instance (l : MapDataLine) : Decidable (wfLine l) := by
  unfold wfLine; exact inferInstance

def wfTagSet (t : ElementTagSet) : Prop :=
  wfU32 t.name ∧ wfU32 t.hw_ref ∧ wfU32 t.highway ∧ wfU32 t.surface ∧
    wfU32 t.smoothness

instance (t : ElementTagSet) : Decidable (wfTagSet t) := by
  unfold wfTagSet; exact inferInstance

def wfString (s : String) : Prop := wfList s.data

instance (s : String) : Decidable (wfString s) := by
  unfold wfString; exact inferInstance

def wfTags (t : ElementTags) : Prop :=
  (∀ s ∈ t.tag_values, wfString s) ∧ wfList t.tag_values ∧
  (∀ ts ∈ t.tag_sets, wfTagSet ts) ∧ wfList t.tag_sets ∧
  (∀ kv ∈ t.tag_map, wfString kv.1 ∧ wfU32 kv.2) ∧ wfList t.tag_map ∧
  (∀ kv ∈ t.tag_set_map, wfTagSet kv.1 ∧ wfU32 kv.2) ∧ wfList t.tag_set_map

instance (t : ElementTags) : Decidable (wfTags t) := by
  unfold wfTags; exact inferInstance

def wfGrid (g : PointGrid) : Prop :=
  (∀ cell ∈ g.cells, wfU64 cell.1 ∧ (∀ x ∈ cell.2, wfU64 x) ∧ wfList cell.2) ∧
    wfList g.cells

instance (g : PointGrid) : Decidable (wfGrid g) := by
  unfold wfGrid; exact inferInstance

def wfGraph (g : MapDataGraph) : Prop :=
  (∀ p ∈ g.points, wfPoint p) ∧ wfList g.points ∧
  (∀ l ∈ g.lines, wfLine l) ∧ wfList g.lines ∧
  wfTags g.tags ∧ wfGrid g.point_grid

instance (g : MapDataGraph) : Decidable (wfGraph g) := by
  unfold wfGraph; exact inferInstance

/-- A small concrete graph exercising every serialized component, with
non-empty builder maps (which the round trip drops). The `lat`/`lon`
values are the bit patterns of `1.0f32` and `-1.0f32`. -/
def exGraphSmall : MapDataGraph :=
  { points := [{ id := 11, lat := 1065353216, lon := 3212836864,
                 lines := [0],
                 rules := [{ from_lines := [0], to_lines := [0],
                             rule_type := MapDataRuleType.OnlyAllowed }],
                 residential_in_proximity := true, nogo_area := false }],
    points_map := [(11, 0)],
    point_grid := { cells := [(42, [0])] },
    ways_lines := [(7, [0])],
    lines := [{ point1 := 0, point2 := 0,
                direction := LineDirection.Roundabout, tags := 0 }],
    tags := { tag_values := ["Main Street"],
              tag_sets := [{ name := 1, hw_ref := 0, highway := 0,
                             surface := 0, smoothness := 0 }],
              tag_map := [("Main Street", 0)], tag_set_map := [] } }

/-! ## Claim C9: `MapDataGraph::insert_way`
(src/src/map_data/graph.rs 454-506). -/

inductive MapDataError where
  | MissingPoint (point_id : Nat)
deriving DecidableEq, Repr

/-- `MapDataGraph::get_point_ref_by_id`: the builder map lookup. -/
def get_point_ref_by_id (g : MapDataGraph) (id : Nat) : Option Nat :=
  (g.points_map.find? fun kv => kv.1 = id).map fun kv => kv.2

/-- `ElementTags::get_tag_value_ref`: absent is position `0`; a present
value has `_link` stripped, is interned in `tag_map` / `tag_values`, and
the returned position is its index plus one. -/
def get_tag_value_ref (tags : ElementTags) (value : Option String) :
    ElementTags × Nat :=
  match value with
  | none => (tags, 0)
  | some v =>
    let v2 := if v.endsWith "_link" then v.replace "_link" "" else v
    match tags.tag_map.find? fun kv => kv.1 = v2 with
    | some kv => (tags, kv.2 + 1)
    | none =>
      let new_idx := tags.tag_values.length
      ({ tags with
         tag_values := tags.tag_values ++ [v2]
         tag_map := tags.tag_map ++ [(v2, new_idx)] }, new_idx + 1)

/-- `ElementTags::get_or_create`: intern the five optional values, then
deduplicate the resulting 5-tuple through `tag_set_map`. -/
def get_or_create (tags : ElementTags)
    (name hw_ref highway surface smoothness : Option String) :
    ElementTags × Nat :=
  let r1 := get_tag_value_ref tags name
  let r2 := get_tag_value_ref r1.1 hw_ref
  let r3 := get_tag_value_ref r2.1 highway
  let r4 := get_tag_value_ref r3.1 surface
  let r5 := get_tag_value_ref r4.1 smoothness
  let tag_set : ElementTagSet :=
    { name := r1.2, hw_ref := r2.2, highway := r3.2, surface := r4.2,
      smoothness := r5.2 }
  match r5.1.tag_set_map.find? fun kv => kv.1 = tag_set with
  | some kv => (r5.1, kv.2)
  | none =>
    let new_idx := r5.1.tag_sets.length
    ({ r5.1 with
       tag_set_map := r5.1.tag_set_map ++ [(tag_set, new_idx)]
       tag_sets := r5.1.tag_sets ++ [tag_set] }, new_idx)

/-- Modelled from the spec: `OsmWay::is_roundabout` (map_data/osm.rs is not
among the staged sources) — the way's `junction` tag equals `roundabout`. -/
def way_is_roundabout (w : OsmWay) : Bool :=
  match w.tags with
  | some tags => tagsGet tags "junction" = some "roundabout"
  | none => false

/-- Modelled from the spec: `OsmWay::is_one_way` — the way's `oneway` tag
equals `yes`. -/
def way_is_one_way (w : OsmWay) : Bool :=
  match w.tags with
  | some tags => tagsGet tags "oneway" = some "yes"
  | none => false

/-- Append a line index to the incidence list of the point at `idx`
(`point_mut.lines.push(line_ref)`). -/
def push_point_line : List MapDataPoint → Nat → Nat → List MapDataPoint
  | [], _, _ => []
  | p :: ps, 0, line_idx => { p with lines := p.lines ++ [line_idx] } :: ps
  | p :: ps, i + 1, line_idx => p :: push_point_line ps i line_idx

/-- The incidence list of the point at index `idx` in a point table (empty
when out of range). -/
def lines_of (ps : List MapDataPoint) (idx : Nat) : List Nat :=
  ((ps.get? idx).map MapDataPoint.lines).getD []

/-- The incidence list of the point at index `idx` of the graph. -/
def point_lines_at (g : MapDataGraph) (idx : Nat) : List Nat :=
  lines_of g.points idx

/-- The body of `insert_way`'s per-pair block: intern the way's five tags,
append the new `MapDataLine` (its index is the old line-table length, as
`add_line` returns `lines.len() - 1`), and push that index onto both
endpoints' incidence lists (end point first, previous point second, as the
source does). Returns the updated graph and the new line index. -/
def materialize_line (g : MapDataGraph) (osm_way : OsmWay)
    (prev_idx point_idx : Nat) : MapDataGraph × Nat :=
  let tag_name := osm_way.tags.bind fun t => tagsGet t "name"
  let tag_ref := osm_way.tags.bind fun t => tagsGet t "ref"
  let tag_surface := osm_way.tags.bind fun t => tagsGet t "surface"
  let tag_smoothness := osm_way.tags.bind fun t => tagsGet t "smoothness"
  let tag_highway := osm_way.tags.bind fun t => tagsGet t "highway"
  let interned := get_or_create g.tags tag_name tag_ref tag_highway
    tag_surface tag_smoothness
  let line : MapDataLine :=
    { point1 := prev_idx, point2 := point_idx,
      direction := if way_is_roundabout osm_way then LineDirection.Roundabout
        else if way_is_one_way osm_way then LineDirection.OneWay
        else LineDirection.BothWays,
      tags := interned.2 }
  let line_idx := g.lines.length
  ({ g with
     tags := interned.1
     lines := g.lines ++ [line]
     points := push_point_line (push_point_line g.points point_idx line_idx)
       prev_idx line_idx }, line_idx)

inductive InsertWayStep where
  | success (g : MapDataGraph) (way_line_refs : List Nat)
  | missing (g : MapDataGraph) (point_id : Nat)
deriving Repr

/-- The `for point_id in &osm_way.point_ids` loop of `insert_way`: walk the
ids with the previous point's index and the accumulated line references;
bail out at the first id absent from the builder map. -/
def insert_way_go (osm_way : OsmWay) :
    MapDataGraph → Option Nat → List Nat → List Nat → InsertWayStep
  | g, _, acc, [] => InsertWayStep.success g acc
  | g, prev, acc, point_id :: rest =>
    match get_point_ref_by_id g point_id with
    | none => InsertWayStep.missing g point_id
    | some point_idx =>
      match prev with
      | none => insert_way_go osm_way g (some point_idx) acc rest
      | some prev_idx =>
        let m := materialize_line g osm_way prev_idx point_idx
        insert_way_go osm_way m.1 (some point_idx) (acc ++ [m.2]) rest

/-- `HashMap::insert` on the ways map: replace the entry when the key
exists, append otherwise. -/
def ways_lines_insert (m : List (Nat × List Nat)) (k : Nat) (v : List Nat) :
    List (Nat × List Nat) :=
  if m.any fun kv => kv.1 = k then
    m.map fun kv => if kv.1 = k then (k, v) else kv
  else m ++ [(k, v)]

/-- Embedding of `MapDataGraph::insert_way`: inadmissible ways return `Ok`
untouched; otherwise the id loop runs, and only on success is the
way-to-lines registration performed. -/
def insert_way (g : MapDataGraph) (osm_way : OsmWay) :
    MapDataGraph × Option MapDataError :=
  if way_is_ok osm_way = false then (g, none)
  else
    match insert_way_go osm_way g none [] osm_way.point_ids with
    | InsertWayStep.success g2 way_line_refs =>
      ({ g2 with
         ways_lines := ways_lines_insert g2.ways_lines osm_way.id way_line_refs },
       none)
    | InsertWayStep.missing g2 point_id =>
      (g2, some (MapDataError.MissingPoint point_id))

/-- The consecutive id pairs that the loop materializes from a previous id
and a list of ids. -/
def chainPairs : Option Nat → List Nat → List (Nat × Nat)
  | _, [] => []
  | none, p :: ps => chainPairs (some p) ps
  | some q, p :: ps => (q, p) :: chainPairs (some p) ps

/-- A two-point graph for the C9 witness. -/
def exGraphTwoPoints : MapDataGraph :=
  { points := [{ id := 1, lat := 0, lon := 0, lines := [], rules := [],
                 residential_in_proximity := false, nogo_area := false },
               { id := 2, lat := 0, lon := 0, lines := [], rules := [],
                 residential_in_proximity := false, nogo_area := false }],
    points_map := [(1, 0), (2, 1)],
    point_grid := { cells := [] },
    ways_lines := [],
    lines := [],
    tags := { tag_values := [], tag_sets := [], tag_map := [],
              tag_set_map := [] } }

/-- A way referencing points 1 and 2 and then the absent point 99. -/
def wayWithMissingPoint : OsmWay :=
  { id := 7, point_ids := [1, 2, 99],
    tags := some [("highway", "primary")] }

/-! ## Claims C1, C2, C4: the navigator (src/src/router/navigator.rs) with
its walker (spec-modelled) and itinerary (src/src/router/itinerary.rs). -/

structure NavLine where
  p1 : Nat
  p2 : Nat
  direction : Nat
deriving DecidableEq, Repr

structure NavRule where
  from_lines : List Nat
  to_lines : List Nat
  only_allowed : Bool
deriving DecidableEq, Repr

structure NavPoint where
  id : Nat
  lines : List Nat
  rules : List NavRule
deriving DecidableEq, Repr

/-- The frozen graph as the navigator reads it: point and line tables plus
an abstract integer-valued distance on point indices standing for the `f32`
great-circle `distance_between` (point.rs is not among the staged sources;
the navigator uses distances only through comparisons). Line `direction`:
0 both ways, 1 one-way, 2 roundabout. -/
structure NavGraph where
  points : List NavPoint
  lines : List NavLine
  dist : Nat → Nat → Int

/-- A route segment: (line reference, end-point reference). -/
structure Segment where
  line : Nat
  endPoint : Nat
deriving DecidableEq, Repr

def navLineAt (g : NavGraph) (li : Nat) : NavLine :=
  (g.lines.get? li).getD { p1 := 0, p2 := 0, direction := 0 }

def navPointAt (g : NavGraph) (pidx : Nat) : NavPoint :=
  (g.points.get? pidx).getD { id := 0, lines := [], rules := [] }

/-- A point is a junction iff it has three or more incident lines. -/
def nav_is_junction (g : NavGraph) (pidx : Nat) : Bool :=
  3 ≤ (navPointAt g pidx).lines.length

/-- Modelled from the spec: the walker's outgoing-segment filter at a point
(walker.rs is not among the staged sources): exclude the segment that would
reverse the immediately previous line, one-way/roundabout lines traversed
against their direction, and continuations forbidden by a
`NotAllowed`/`OnlyAllowed` rule attached to the point for the incoming
line. -/
def outgoing_segments (g : NavGraph) (pidx : Nat) (prevLine : Option Nat) :
    List Segment :=
  (navPointAt g pidx).lines.filterMap fun li =>
    let l := navLineAt g li
    let other := if l.p1 = pidx then l.p2 else l.p1
    if some li = prevLine then none
    else if l.direction ≠ 0 ∧ l.p1 ≠ pidx then none
    else if (navPointAt g pidx).rules.any fun r =>
        (match prevLine with
         | none => false
         | some pl => r.from_lines.contains pl &&
            (if r.only_allowed then !(r.to_lines.contains li)
             else r.to_lines.contains li))
      then none
    else some { line := li, endPoint := other }

structure Walker where
  start : Nat
  finish : Nat
  route : List Segment
  forkChoice : Option Nat
deriving DecidableEq, Repr

inductive WalkerMoveResult where
  | Finish
  | Fork (choices : List Segment)
  | DeadEnd
deriving DecidableEq, Repr

def walker_last_point (w : Walker) : Nat :=
  (w.route.getLast?.map Segment.endPoint).getD w.start

def walker_prev_line (w : Walker) : Option Nat :=
  w.route.getLast?.map Segment.line

/-- Modelled from the spec: the walk loop of `move_forward_to_next_fork` —
from the current point follow the unique legal continuation, appending each
crossed line to the route, until the finish (`Finish`), two or more legal
continuations (`Fork`), or none (`DeadEnd`). `fuel` bounds the walk over
the finite graph; exhaustion models the walker's error return, which the
navigator logs and skips. -/
def move_forward_go (g : NavGraph) (fin : Nat) :
    Nat → Nat → Option Nat → List Segment →
      Option (WalkerMoveResult × List Segment)
  | 0, _, _, _ => none
  | fuel + 1, cur, prevLine, route =>
    if cur = fin then some (WalkerMoveResult.Finish, route)
    else
      match outgoing_segments g cur prevLine with
      | [] => some (WalkerMoveResult.DeadEnd, route)
      | [s] => move_forward_go g fin fuel s.endPoint (some s.line) (route ++ [s])
      | segs => some (WalkerMoveResult.Fork segs, route)

/-- Modelled from the spec: `move_forward_to_next_fork` — a pending fork
choice is consumed first (the walker moves onto the segment whose end-point
was chosen), then the walk loop runs. -/
def move_forward_to_next_fork (g : NavGraph) (w : Walker) (fuel : Nat) :
    Option (WalkerMoveResult × Walker) :=
  match w.forkChoice with
  | some c =>
    let segs := outgoing_segments g (walker_last_point w) (walker_prev_line w)
    match segs.find? fun s => s.endPoint == c with
    | none => none
    | some s =>
      (move_forward_go g w.finish fuel s.endPoint (some s.line)
        (w.route ++ [s])).map fun v =>
          (v.1, { w with route := v.2, forkChoice := none })
  | none =>
    (move_forward_go g w.finish fuel (walker_last_point w)
      (walker_prev_line w) w.route).map fun v => (v.1, { w with route := v.2 })

/-- Modelled from the spec: `move_backwards_to_prev_fork` pops the last
segment and keeps popping until the route's tail ends at the most recent
junction (exclusive), returning the walker and the popped segments. -/
def move_backwards_to_prev_fork (g : NavGraph) (w : Walker) :
    Walker × List Segment :=
  match w.route.reverse with
  | [] => (w, [])
  | s :: rrest =>
    let rkeep := rrest.dropWhile fun seg => !(nav_is_junction g seg.endPoint)
    let popped := s :: rrest.takeWhile fun seg => !(nav_is_junction g seg.endPoint)
    ({ w with route := rkeep.reverse }, popped)

/-- Modelled from the spec: `Route::get_junction_before_last_segment` — the
nearest segment, scanning back from the route's tail, whose end-point is a
junction (`none` means no earlier junction remains, hence `Stuck`). -/
def get_junction_before_last_segment (g : NavGraph) (route : List Segment) :
    Option Segment :=
  route.reverse.find? fun s => nav_is_junction g s.endPoint

structure NavItinerary where
  start : Nat
  finish : Nat
  waypoints : List Nat
  next : Nat
  waypoint_radius : Int
deriving DecidableEq, Repr

/-- `Itinerary::new`: `next` starts at the first waypoint, or the finish
when there are none. -/
def nav_itinerary_new (start finish : Nat) (waypoints : List Nat)
    (radius : Int) : NavItinerary :=
  { start := start, finish := finish, waypoints := waypoints,
    next := (waypoints.get? 0).getD finish, waypoint_radius := radius }

/-- Embedding of `Itinerary::check_set_next`. -/
def check_set_next (g : NavGraph) (it : NavItinerary) (current : Nat) :
    NavItinerary :=
  if g.dist current it.finish < g.dist current it.next then
    { it with next := it.finish }
  else if g.dist current it.next ≤ it.waypoint_radius then
    match it.waypoints.findIdx? fun wp => wp == it.next with
    | some idx => { it with next := (it.waypoints.get? (idx + 1)).getD it.finish }
    | none => { it with next := it.finish }
  else it

/-- The weight-calculation input as the navigator builds it. The
`walker_from_fork` projection walker and the debug logger are omitted:
weight functions are opaque parameters here, and the four data fields below
are what the navigator computes for them. -/
structure WeightCalcInputN where
  route : List Segment
  itinerary : NavItinerary
  currentForkSegment : Segment
  allForkSegments : List Segment

abbrev WeightCalcN := WeightCalcInputN → WeightCalcResult

/-- `ForkWeights.weight_list`: `HashMap<point, u32>` as an association
list. The key-based operations (`insert`, `get`) never observe entry
order, so modelling the entries in any one order is faithful to them; but
`get_choices_sorted_by_weight` (navigator.rs 101-105) iterates the map,
and a std `HashMap`'s iteration order is randomized per map, so a list
value here stands for one possible iteration order and statements about
the sorted view must quantify over every permutation of the entries
rather than fix one order. -/
abbrev ForkWeights := List (Nat × Nat)

def fork_weights_get (fw : ForkWeights) (p : Nat) : Option Nat :=
  (fw.find? fun kv => kv.1 == p).map fun kv => kv.2

/-- `HashMap::insert`: update the existing entry in place, or append. -/
def fork_weights_insert (fw : ForkWeights) (p v : Nat) : ForkWeights :=
  if fw.any fun kv => kv.1 == p then
    fw.map fun kv => if kv.1 == p then (p, v) else kv
  else fw ++ [(p, v)]

/-- The `u8` weight a `WeightCalcResult` contributes to the sum. -/
def weightValue : WeightCalcResult → Nat
  | WeightCalcResult.DoNotUse => 0
  | WeightCalcResult.UseWithWeight w => w

/-- Embedding of `ForkWeights::add_calc_result`: a choice with any
`DoNotUse` is skipped entirely; otherwise the summed `UseWithWeight` values
are added onto the existing entry (u32 sums of a few values ≤ 255 never
wrap, so `Nat` arithmetic is faithful). -/
def add_calc_result (fw : ForkWeights) (choice_point : Nat)
    (weights : List WeightCalcResult) : ForkWeights :=
  if weights.all fun w => !(w == WeightCalcResult.DoNotUse) then
    fork_weights_insert fw choice_point
      (((fork_weights_get fw choice_point).getD 0)
        + (weights.map weightValue).sum)
  else fw

/-- One step of a stable descending insertion sort on (point, weight)
entries: a new element goes before the first element of not-larger
weight. -/
def ordered_insert_weight (x : Nat × Nat) : ForkWeights → ForkWeights
  | [] => [x]
  | y :: ys => if y.2 ≤ x.2 then x :: y :: ys else y :: ordered_insert_weight x ys

/-- `ForkWeights::get_choices_sorted_by_weight`: the stable `sort_by` with
comparator `v2.1.cmp(v.1)` (weight descending) applied to the list the
`HashMap` iteration yields; for the total preorder that comparator
induces, every stable sort returns the same list, so a stable insertion
sort embeds it. The iteration order itself is randomized, so only
consequences that hold for every permutation of the entries — such as the
head being an entry of maximal weight — are properties of the program;
the position of the head among equal maximal weights is not. -/
def get_choices_sorted_by_weight (fw : ForkWeights) : ForkWeights :=
  fw.foldr ordered_insert_weight []

/-- `ForkWeights::get_choice_id_by_index_from_heaviest`. -/
def get_choice_by_index_from_heaviest (fw : ForkWeights) (idx : Nat) :
    Option Nat :=
  ((get_choices_sorted_by_weight fw).get? idx).map fun kv => kv.1

/-- `DiscardedForkChoices.choices`: `HashMap<point, HashSet<point>>` as an
insertion-ordered association list of insertion-ordered sets. -/
abbrev DiscardedForkChoices := List (Nat × List Nat)

def get_discarded_choices_for_point (d : DiscardedForkChoices) (p : Nat) :
    Option (List Nat) :=
  (d.find? fun kv => kv.1 == p).map fun kv => kv.2

/-- Embedding of `DiscardedForkChoices::add_discarded_choice`: create or
extend the fork point's set (inserting an existing member of the `HashSet`
is a no-op; a new member is appended). -/
def add_discarded_choice (d : DiscardedForkChoices) (p c : Nat) :
    DiscardedForkChoices :=
  match get_discarded_choices_for_point d p with
  | some existing =>
    let new_set := if c ∈ existing then existing else existing ++ [c]
    d.map fun kv => if kv.1 == p then (p, new_set) else kv
  | none => d ++ [(p, [c])]

/-- Modelled from the spec: `SegmentList::exclude_segments_where_points_in`
(route/segment_list.rs is not among the staged sources) — drop the segments
whose end-point is in the given list. -/
def exclude_segments_where_points_in (segs : List Segment) (pts : List Nat) :
    List Segment :=
  segs.filter fun s => !(pts.contains s.endPoint)

structure NavState where
  itinerary : NavItinerary
  walker : Walker
  discard : DiscardedForkChoices
deriving DecidableEq, Repr

inductive NavigationResult where
  | Stuck
  | Stopped (route : List Segment)
  | Finished (route : List Segment)
deriving DecidableEq, Repr

inductive NavStepOut where
  | done (r : NavigationResult)
  | next (s : NavState) (ev : Option (Nat × Nat))
deriving DecidableEq, Repr

/-- The scoring fold of the fork branch (navigator.rs 203-242): fold
`add_calc_result` over the surviving fork choices, evaluating every weight
function on each. -/
def compute_fork_weights (wcs : List WeightCalcN) (route : List Segment)
    (it : NavItinerary) (choices : List Segment) : ForkWeights :=
  choices.foldl (fun fw seg =>
    add_calc_result fw seg.endPoint
      (wcs.map fun f => f
        { route := route
          itinerary := it
          currentForkSegment := seg
          allForkSegments := choices })) []

/-- The fork branch of `generate_routes` (navigator.rs 179-271), given the
walker returned by the forward move and the raw fork choices: exclude the
fork point's previously discarded choices, advance the itinerary, score
the surviving choices; on a chosen point, record it in the discard memory
and set it as the walker's next fork choice (the reported event); with no
usable choice, move backwards and return `Stuck` when no junction
remains. This executable model iterates the weight map in insertion
order; the program's `HashMap` iteration order is randomized, so of this
branch only conclusions independent of which maximal-weight entry gets
picked are read off as program properties. -/
def nav_fork_branch (g : NavGraph) (wcs : List WeightCalcN) (s : NavState)
    (w2 : Walker) (fork_choices0 : List Segment) : NavStepOut :=
  let last_point := walker_last_point w2
  let fork_choices := exclude_segments_where_points_in fork_choices0
    ((get_discarded_choices_for_point s.discard last_point).getD [])
  let it2 := check_set_next g s.itinerary last_point
  let fork_weights := compute_fork_weights wcs w2.route it2 fork_choices
  match get_choice_by_index_from_heaviest fork_weights 0 with
  | some chosen =>
    NavStepOut.next
      { itinerary := it2,
        walker := { w2 with forkChoice := some chosen },
        discard := add_discarded_choice s.discard last_point chosen }
      (some (last_point, chosen))
  | none =>
    let mb := move_backwards_to_prev_fork g w2
    if get_junction_before_last_segment g mb.1.route = none then
      NavStepOut.done NavigationResult.Stuck
    else
      NavStepOut.next { itinerary := it2, walker := mb.1, discard := s.discard }
        none

/-- One iteration of the `generate_routes` loop (navigator.rs 165-287):
move forward, then dispatch on `Finish` / `Fork` / `DeadEnd`; a walker
error (fuel exhaustion in the model) falls through all branches and the
loop just continues, as the source's `if let Ok(..)` chains do. -/
def navStep (g : NavGraph) (wcs : List WeightCalcN) (walk_fuel : Nat)
    (s : NavState) : NavStepOut :=
  match move_forward_to_next_fork g s.walker walk_fuel with
  | none => NavStepOut.next s none
  | some (WalkerMoveResult.Finish, w2) =>
    NavStepOut.done (NavigationResult.Finished w2.route)
  | some (WalkerMoveResult.Fork fork_choices, w2) =>
    nav_fork_branch g wcs s w2 fork_choices
  | some (WalkerMoveResult.DeadEnd, w2) =>
    NavStepOut.next { s with walker := (move_backwards_to_prev_fork g w2).1 }
      none

/-- The hard-coded bound of the `generate_routes` loop:
`if loop_counter >= 1000000 { return Stopped(...) }` (navigator.rs 285). -/
def STEP_LIMIT_HARD : Nat := 1000000

/-- The default of the configurable `BasicRuleStepLimit`
(src/src/router/rules.rs 32-38), which `generate_routes` does not read. -/
def basic_rule_step_limit_default : Nat := 30000

/-- The `generate_routes` loop with its iteration count: each iteration
increments the counter, runs the step, and returns `Stopped` with the
current route once the counter reaches the cap (`fuel` is the remaining
iterations). -/
def navLoop (g : NavGraph) (wcs : List WeightCalcN) (walk_fuel : Nat) :
    NavState → Nat → NavigationResult × Nat
  | s, 0 => (NavigationResult.Stopped s.walker.route, 0)
  | s, n + 1 =>
    match navStep g wcs walk_fuel s with
    | NavStepOut.done r => (r, 1)
    | NavStepOut.next s2 _ =>
      if n = 0 then (NavigationResult.Stopped s2.walker.route, 1)
      else
        let r := navLoop g wcs walk_fuel s2 n
        (r.1, r.2 + 1)

/-- Embedding of `Navigator::generate_routes` (with `Navigator::new`'s
initial state: a fresh walker from the itinerary's start to its finish and
an empty discard memory), returning the result and the number of loop
iterations performed. -/
def generate_routes (g : NavGraph) (wcs : List WeightCalcN) (walk_fuel : Nat)
    (it : NavItinerary) : NavigationResult × Nat :=
  navLoop g wcs walk_fuel
    { itinerary := it,
      walker := { start := it.start, finish := it.finish, route := [],
                  forkChoice := none },
      discard := [] } STEP_LIMIT_HARD

/-- The (fork point, chosen point) events of a navigator run. -/
def navTrace (g : NavGraph) (wcs : List WeightCalcN) (walk_fuel : Nat) :
    NavState → Nat → List (Nat × Nat)
  | _, 0 => []
  | s, n + 1 =>
    match navStep g wcs walk_fuel s with
    | NavStepOut.done _ => []
    | NavStepOut.next s2 ev => ev.toList ++ navTrace g wcs walk_fuel s2 n

/-- The discard set the navigator consults for fork point `p`. -/
def discard_set (s : NavState) (p : Nat) : List Nat :=
  (get_discarded_choices_for_point s.discard p).getD []

/-- A dead-end graph: a single line between points 0 and 1, with the
finish point 2 isolated. -/
def exNavGraphDeadEnd : NavGraph :=
  { points := [{ id := 1, lines := [0], rules := [] },
               { id := 2, lines := [0], rules := [] },
               { id := 3, lines := [], rules := [] }],
    lines := [{ p1 := 0, p2 := 1, direction := 0 }],
    dist := fun _ _ => 0 }

def exItineraryDeadEnd : NavItinerary := nav_itinerary_new 0 2 [] 0

/-- A graph with one fork: 0 — 1, then 1 — 2 and 1 — 3 (point 1 has three
incident lines, a junction). -/
def exNavGraphFork : NavGraph :=
  { points := [{ id := 1, lines := [0], rules := [] },
               { id := 2, lines := [0, 1, 2], rules := [] },
               { id := 3, lines := [1], rules := [] },
               { id := 4, lines := [2], rules := [] }],
    lines := [{ p1 := 0, p2 := 1, direction := 0 },
              { p1 := 1, p2 := 2, direction := 0 },
              { p1 := 1, p2 := 3, direction := 0 }],
    dist := fun _ _ => 0 }

def exItineraryFork : NavItinerary := nav_itinerary_new 0 2 [] 0

def exWeightOne : List WeightCalcN := [fun _ => WeightCalcResult.UseWithWeight 1]

def exNavStateFork : NavState :=
  { itinerary := exItineraryFork,
    walker := { start := 0, finish := 2, route := [], forkChoice := none },
    discard := [] }

/-- `x` sits in `fw` at the first position of maximal weight: everything
before it is strictly lighter and nothing in `fw` is heavier. -/
def is_first_max (fw : ForkWeights) (x : Nat × Nat) : Prop :=
  ∃ pre post, fw = pre ++ x :: post ∧ (∀ y ∈ pre, y.2 < x.2) ∧ ∀ y ∈ fw, y.2 ≤ x.2

/-- The weight-calculation input the navigator hands every weight function
for a given fork choice. -/
def fork_input (route : List Segment) (it : NavItinerary)
    (choices : List Segment) (seg : Segment) : WeightCalcInputN :=
  { route := route
    itinerary := it
    currentForkSegment := seg
    allForkSegments := choices }

/-! ## Theorems -/

/-- C10: `weight_prefer_same_road` returns `UseWithWeight 80` exactly when
the previous segment's line and the fork line share an equal `ref` tag or an
equal `name` tag (absent equals absent; an empty route's previous tags are
absent), returns `UseWithWeight 0` otherwise, and never returns `DoNotUse`. -/
theorem weight_prefer_same_road_correct (input : WeightCalcInputW) :
    weight_prefer_same_road input ≠ WeightCalcResult.DoNotUse ∧
    (weight_prefer_same_road input = WeightCalcResult.UseWithWeight 80 ↔
      sameRoadCondition input) ∧
    (¬ sameRoadCondition input →
      weight_prefer_same_road input = WeightCalcResult.UseWithWeight 0) ∧
    (input.route = [] → input.currentForkSegment.line.tagsRef = none →
      weight_prefer_same_road input = WeightCalcResult.UseWithWeight 80) := by
  have hcond : (input.route.getLast?.bind (fun s => s.line.tagsRef) =
        input.currentForkSegment.line.tagsRef ∨
      input.route.getLast?.bind (fun s => s.line.tagsName) =
        input.currentForkSegment.line.tagsName) ↔ sameRoadCondition input := by
    unfold sameRoadCondition
    cases input.route.getLast? <;> simp [eq_comm]
  have hw : weight_prefer_same_road input =
      if (input.route.getLast?.bind (fun s => s.line.tagsRef) =
            input.currentForkSegment.line.tagsRef ∨
          input.route.getLast?.bind (fun s => s.line.tagsName) =
            input.currentForkSegment.line.tagsName)
      then WeightCalcResult.UseWithWeight 80
      else WeightCalcResult.UseWithWeight 0 := rfl
  refine ⟨?_, ?_, ?_, ?_⟩
  · rw [hw]
    split <;> simp
  · rw [hw, ← hcond]
    split <;> rename_i h
    · simpa using h
    · simpa using h
  · intro hn
    rw [hw, ← hcond] at *
    split <;> rename_i h
    · exact absurd h hn
    · rfl
  · intro hroute href
    rw [hw, hroute]
    simp [href]

theorem way_access_bad_false (tags : WayTags) :
    way_access_bad tags = false ↔
      (tagsGet tags "access" ≠ some "no" ∧ tagsGet tags "access" ≠ some "private") := by
  unfold way_access_bad
  cases h : tagsGet tags "access" with
  | none => simp [h]
  | some a => simp only [h, Bool.or_eq_false_iff, decide_eq_false_iff_not,
      ne_eq, Option.some.injEq, and_comm]

theorem way_motor_vehicle_bad_false (tags : WayTags) :
    way_motor_vehicle_bad tags = false ↔
      (tagsGet tags "motor_vehicle" ≠ some "no" ∧
       tagsGet tags "motor_vehicle" ≠ some "private") := by
  unfold way_motor_vehicle_bad
  cases h : tagsGet tags "motor_vehicle" with
  | none => simp [h]
  | some a => simp only [h, Bool.or_eq_false_iff, decide_eq_false_iff_not,
      ne_eq, Option.some.injEq, and_comm]

theorem way_service_bad_false (tags : WayTags) :
    way_service_bad tags = false ↔ tagsGet tags "service" = none := by
  unfold way_service_bad
  cases h : tagsGet tags "service" <;> simp [h]

theorem path_not_allowed : "path" ∉ ALLOWED_HIGHWAY_VALUES := by decide

theorem way_highway_ok_true (tags : WayTags) :
    way_highway_ok tags = true ↔
      (∃ highway, tagsGet tags "highway" = some highway ∧
        highway ∈ ALLOWED_HIGHWAY_VALUES) := by
  unfold way_highway_ok
  cases h : tagsGet tags "highway" with
  | none => simp [h]
  | some hw =>
    simp only [h, Bool.and_eq_true, Option.some.injEq]
    constructor
    · rintro ⟨hmem, -⟩
      exact ⟨hw, rfl, by simpa using hmem⟩
    · rintro ⟨hw2, heq, hmem⟩
      cases heq
      refine ⟨by simpa using hmem, ?_⟩
      have hne : hw ≠ "path" := fun hc => path_not_allowed (hc ▸ hmem)
      simp [hne]

/-- C3 counterexample: `highway=path, motorcycle=yes` is rejected by
`way_is_ok` (because `path` is not in `ALLOWED_HIGHWAY_VALUES`), although
the claim says it is kept; and `highway=primary, motor_vehicle=destination`
is kept by `way_is_ok`, although the claim says it is rejected. -/
theorem way_is_ok_counterexample :
    way_is_ok wayPathMotorcycle = false ∧ wayClaimKept wayPathMotorcycle ∧
    way_is_ok wayMvDestination = true ∧ ¬ wayClaimKept wayMvDestination := by
  refine ⟨by decide, ?_, by decide, ?_⟩
  · exact ⟨[("highway", "path"), ("motorcycle", "yes")], rfl, by decide, by decide,
      by decide, by decide, by decide, by decide,
      ⟨"path", by decide, Or.inr ⟨rfl, by decide⟩⟩⟩
  · rintro ⟨tags, htags, -, -, -, -, -, hdest, -⟩
    simp only [wayMvDestination] at htags
    injection htags with h
    subst h
    exact hdest (by decide)

/-- C3 amended: a way is kept by the graph store's `way_is_ok` iff its tags
are present, `service` is absent, `access ∉ {no, private}`,
`motor_vehicle ∉ {no, private}`, and `highway` has a value from the fixed
allow-list. Since `path` is not in the allow-list, `highway=path` ways are
never kept (even with `motorcycle=yes`), and `motor_vehicle=destination` is
not rejected by the graph store (only the PBF reader's pre-filter drops
it). -/
theorem way_is_ok_amended (osm_way : OsmWay) :
    way_is_ok osm_way = true ↔ wayAmendedKept osm_way := by
  unfold way_is_ok wayAmendedKept
  cases htags : osm_way.tags with
  | none => simp
  | some tags =>
    have hiff : (if way_service_bad tags then false
        else if way_access_bad tags then false
        else if way_motor_vehicle_bad tags then false
        else way_highway_ok tags) = true ↔
        (way_service_bad tags = false ∧ way_access_bad tags = false ∧
         way_motor_vehicle_bad tags = false ∧ way_highway_ok tags = true) := by
      cases hs : way_service_bad tags <;> cases ha : way_access_bad tags <;>
        cases hm : way_motor_vehicle_bad tags <;> simp
    rw [hiff, way_service_bad_false, way_access_bad_false,
      way_motor_vehicle_bad_false, way_highway_ok_true]
    constructor
    · rintro ⟨hs, ⟨ha1, ha2⟩, ⟨hm1, hm2⟩, hw, hhw, hmem⟩
      exact ⟨tags, rfl, hs, ha1, ha2, hm1, hm2, hw, hhw, hmem⟩
    · rintro ⟨tags2, heq, hs, ha1, ha2, hm1, hm2, hw, hhw, hmem⟩
      injection heq with h
      subst h
      exact ⟨hs, ⟨ha1, ha2⟩, ⟨hm1, hm2⟩, hw, hhw, hmem⟩

theorem chunk_bound_mono (count : Nat) {s t : Nat} (h : s ≤ t) :
    chunk_bound count s ≤ chunk_bound count t :=
  Nat.div_le_div_right (Nat.mul_le_mul_right count h)

theorem chunk_bound_zero (count : Nat) : chunk_bound count 0 = 0 := by
  simp [chunk_bound]

theorem chunk_bound_ten (count : Nat) : chunk_bound count 10 = count := by
  simp [chunk_bound, Nat.mul_div_cancel_left]

theorem get_route_chunk_append {α : Type} (r : List α) {i j k : Nat}
    (hij : i ≤ j) (hjk : j ≤ k) :
    get_route_chunk r i j ++ get_route_chunk r j k = get_route_chunk r i k := by
  unfold get_route_chunk
  rw [List.drop_take, List.drop_take, List.drop_take]
  have h1 : k - i = (j - i) + (k - j) := by omega
  have h2 : j = i + (j - i) := by omega
  rw [h1, List.take_add, List.drop_drop, ← h2]

theorem chunks_join {α : Type} (r : List α) (b : Nat → Nat)
    (hmono : ∀ {s t : Nat}, s ≤ t → b s ≤ b t) (n : Nat) :
    ((List.range n).map fun step => get_route_chunk r (b step) (b (step + 1))).flatten
      = get_route_chunk r (b 0) (b n) := by
  induction n with
  | zero =>
    simp [get_route_chunk, List.drop_take]
  | succ n ih =>
    rw [List.range_succ, List.map_append, List.flatten_append]
    simp only [List.map_cons, List.map_nil, List.flatten_cons, List.flatten_nil,
      List.append_nil]
    rw [ih]
    exact get_route_chunk_append r (hmono (Nat.zero_le n)) (hmono (Nat.le_succ n))

/-- C8 amended: for every route of at most `2 ^ 21` segments — the range
on which the exact boundary model provably coincides with the source's
`f32` boundary computation — `Clustering::generate` partitions the segment
list into 10 contiguous buckets with boundaries `⌊step · count / 10⌋` (the
buckets cover the whole list in order but need not have equal counts and
may be empty), takes each bucket's mean (lat, lon), and the fingerprint
has exactly 10 pairs, hence 20 floats. -/
theorem clustering_fingerprint_amended (route : List (ℚ × ℚ))
    (_hlen : route.length ≤ 2 ^ 21) :
    (approximate_route route).length = APPROXIMATION_POINTS ∧
    (fingerprint_floats route).length = 20 ∧
    ((List.range APPROXIMATION_POINTS).map fun step =>
        get_route_chunk route (chunk_bound route.length step)
          (chunk_bound route.length (step + 1))).flatten = route := by
  refine ⟨?_, ?_, ?_⟩
  · simp [approximate_route]
  · have hlen : ∀ (l : List (ℚ × ℚ)),
        (l.flatMap fun p => [p.1, p.2]).length = 2 * l.length := by
      intro l
      induction l with
      | nil => simp
      | cons x xs ih => simp [ih]; ring
    have h10 : (approximate_route route).length = 10 := by
      simp [approximate_route, APPROXIMATION_POINTS]
    rw [fingerprint_floats, hlen, h10]
  · rw [chunks_join route (chunk_bound route.length)
      (fun h => chunk_bound_mono route.length h)]
    simp only [APPROXIMATION_POINTS]
    rw [chunk_bound_zero, chunk_bound_ten]
    simp [get_route_chunk]

/-- C8 counterexample: on a route of 15 segments the ten buckets have sizes
1, 2, 1, 2, ... — they are not equal-count as the claim states (here the
`f32` boundary computation of the source is exact, so the `Nat` model
agrees with it); the fingerprint still has exactly 20 floats. -/
theorem clustering_equal_count_counterexample :
    ((List.range APPROXIMATION_POINTS).map fun step =>
        (get_route_chunk routeFifteen (chunk_bound routeFifteen.length step)
          (chunk_bound routeFifteen.length (step + 1))).length)
      = [1, 2, 1, 2, 1, 2, 1, 2, 1, 2] ∧
    (get_route_chunk routeFifteen (chunk_bound routeFifteen.length 0)
        (chunk_bound routeFifteen.length 1)).length ≠
      (get_route_chunk routeFifteen (chunk_bound routeFifteen.length 1)
        (chunk_bound routeFifteen.length 2)).length ∧
    0 < routeFifteen.length ∧
    (fingerprint_floats routeFifteen).length = 20 := by
  exact ⟨by decide, by decide, by decide, by rfl⟩

/-- C8 amended, witness: the 15-segment route satisfies the length bound
and receives the partition, mean and 20-float structure. -/
theorem clustering_fingerprint_amended_witness :
    routeFifteen.length ≤ 2 ^ 21 ∧
    ((approximate_route routeFifteen).length = APPROXIMATION_POINTS ∧
     (fingerprint_floats routeFifteen).length = 20 ∧
     ((List.range APPROXIMATION_POINTS).map fun step =>
         get_route_chunk routeFifteen (chunk_bound routeFifteen.length step)
           (chunk_bound routeFifteen.length (step + 1))).flatten
       = routeFifteen) :=
  ⟨by decide, clustering_fingerprint_amended routeFifteen (by decide)⟩

set_option maxRecDepth 8000 in
/-- C7: at the failing round-trip input (bearing 0, distance 100000 m;
variation 0, tip ratio 1/2, side ratio 9/10) the source computes the tip
waypoint at bearing 0 and BOTH side waypoints at bearing −45 (the
side-right call reuses the side-left bearing expression), not at +45 and
−45 as the specification's ±45° states; each generated itinerary still
carries exactly three waypoints. -/
theorem round_trip_side_bearing_bug :
    rt_destination_calls 0 0 100000 (1/2) (9/10)
      = ((0, 50000), (-45, 45000), (-45, 5000)) ∧
    rt_side_left_bearing 0 0 = rt_side_right_bearing 0 0 ∧
    rt_side_right_bearing 0 0 = -45 ∧ ((-45 : ℚ) ≠ 0 + 0 + 45) ∧
    (generate_itineraries_round_trip (fun _ b d => (b, d)) (fun _ => some 1)
        1 1 (0, 0) 0 100000).all (fun it => it.waypoints.length = 3) = true ∧
    (generate_itineraries_round_trip (fun _ b d => (b, d)) (fun _ => some 1)
        1 1 (0, 0) 0 100000).length = 250 := by
  refine ⟨?_, ?_, ?_, ?_, ?_, ?_⟩
  · simp only [rt_destination_calls, rt_tip_bearing, rt_side_left_bearing,
      rt_side_right_bearing, Prod.mk.injEq]
    norm_num
  · norm_num [rt_side_left_bearing, rt_side_right_bearing]
  · norm_num [rt_side_right_bearing]
  · norm_num
  · rfl
  · rfl

theorem length_ordered_insert_dist (x : CPoint × ℚ) (l : List (CPoint × ℚ)) :
    (ordered_insert_dist x l).length = l.length + 1 := by
  induction l with
  | nil => rfl
  | cons y ys ih =>
    unfold ordered_insert_dist
    split
    · simp
    · simp [ih]

theorem length_sort_by_distance (l : List (CPoint × ℚ)) :
    (sort_by_distance l).length = l.length := by
  induction l with
  | nil => rfl
  | cons a l ih =>
    show (ordered_insert_dist a (sort_by_distance l)).length = l.length + 1
    rw [length_ordered_insert_dist, ih]

theorem sort_by_distance_eq_nil (l : List (CPoint × ℚ)) :
    sort_by_distance l = [] ↔ l = [] := by
  constructor
  · intro h
    have := length_sort_by_distance l
    rw [h] at this
    exact List.length_eq_zero.mp this.symm
  · rintro rfl
    rfl

theorem sort_by_distance_head (l : List (CPoint × ℚ)) (x : CPoint × ℚ)
    (h : (sort_by_distance l).head? = some x) : is_first_min l x := by
  induction l generalizing x with
  | nil => simp [sort_by_distance] at h
  | cons a l ih =>
    have hstep : sort_by_distance (a :: l) = ordered_insert_dist a (sort_by_distance l) := rfl
    rw [hstep] at h
    cases hs : sort_by_distance l with
    | nil =>
      have hl : l = [] := (sort_by_distance_eq_nil l).mp hs
      rw [hs] at h
      simp only [ordered_insert_dist, List.head?_cons, Option.some.injEq] at h
      subst h hl
      exact ⟨[], [], rfl, by simp, by simp⟩
    | cons y ys =>
      rw [hs] at h
      have hy : is_first_min l y := ih y (by rw [hs]; rfl)
      obtain ⟨pre, post, hdec, hpre, hmin⟩ := hy
      unfold ordered_insert_dist at h
      split at h <;> rename_i hcmp
      · simp only [List.head?_cons, Option.some.injEq] at h
        subst h
        refine ⟨[], l, rfl, by simp, ?_⟩
        intro z hz
        rcases List.mem_cons.mp hz with rfl | hz
        · exact le_refl _
        · exact le_trans hcmp (hmin z hz)
      · simp only [List.head?_cons, Option.some.injEq] at h
        subst h
        refine ⟨a :: pre, post, by rw [hdec]; simp, ?_, ?_⟩
        · intro z hz
          rcases List.mem_cons.mp hz with rfl | hz
          · exact lt_of_not_le hcmp
          · exact hpre z hz
        · intro z hz
          rcases List.mem_cons.mp hz with rfl | hz
          · exact le_of_lt (lt_of_not_le hcmp)
          · exact hmin z hz

/-- C5 amended: `get_closest_to_coords` returns none exactly when the grid
yields no candidates or no candidate survives the residential and Avoid-tag
filters; otherwise it returns the first candidate, in the grid's candidate
order, attaining the minimal distance — distance ties are broken by that
stable-sort position, not by point id. -/
theorem get_closest_to_coords_amended (hdist : GeoPoint → GeoPoint → ℚ)
    (closest_points : Option (List CPoint)) (rules : RouterRulesTags)
    (avoid_residential : Bool) (lat lon : ℚ) :
    (get_closest_to_coords hdist closest_points rules avoid_residential lat lon = none ↔
      (closest_points = none ∨ ∃ pts, closest_points = some pts ∧
        pts.filter (closest_candidate_ok (get_avoid_rules rules) avoid_residential)
          = [])) ∧
    (∀ p, get_closest_to_coords hdist closest_points rules avoid_residential lat lon
        = some p →
      ∃ pts, closest_points = some pts ∧
        is_first_min
          ((pts.filter
              (closest_candidate_ok (get_avoid_rules rules) avoid_residential)).map
            fun q => (q, hdist (q.lon, q.lat) (lon, lat)))
          (p, hdist (p.lon, p.lat) (lon, lat))) := by
  cases closest_points with
  | none =>
    constructor
    · simp [get_closest_to_coords]
    · intro p hp
      simp [get_closest_to_coords] at hp
  | some pts =>
    constructor
    · simp only [get_closest_to_coords, Option.map_eq_none', List.head?_eq_none_iff]
      rw [sort_by_distance_eq_nil, List.map_eq_nil_iff]
      constructor
      · intro h
        exact Or.inr ⟨pts, rfl, h⟩
      · rintro (h | ⟨pts2, heq, h⟩)
        · exact absurd h (by simp)
        · injection heq with h2
          subst h2
          exact h
    · intro p hp
      simp only [get_closest_to_coords, Option.map_eq_some'] at hp
      obtain ⟨v, hv, hvp⟩ := hp
      have hfm := sort_by_distance_head _ v hv
      have hvmem : v ∈ (pts.filter
          (closest_candidate_ok (get_avoid_rules rules) avoid_residential)).map
            fun q => (q, hdist (q.lon, q.lat) (lon, lat)) := by
        obtain ⟨pre, post, hdec, -, -⟩ := hfm
        rw [hdec]
        exact List.mem_append.mpr (Or.inr (List.mem_cons_self _ _))
      obtain ⟨q, hq, hqv⟩ := List.mem_map.mp hvmem
      have hq1 : q = p := by rw [← hqv] at hvp; exact hvp
      subst hq1
      rw [← hqv] at hfm
      exact ⟨pts, rfl, hfm⟩

/-- C5 counterexample: two surviving candidates at the same coordinates
(hence exactly equal distance) with ids 5 and 3: the query returns
whichever candidate the grid listed first, not the one picked by id — the
tie-break depends on candidate order, so it is not "deterministically by
point id" as the claim states. -/
theorem get_closest_tie_counterexample :
    get_closest_to_coords hdistManhattan (some [cpointFive, cpointThree])
        rulesEmptyTags false 0 0 = some cpointFive ∧
    get_closest_to_coords hdistManhattan (some [cpointThree, cpointFive])
        rulesEmptyTags false 0 0 = some cpointThree ∧
    hdistManhattan (cpointFive.lon, cpointFive.lat) (0, 0)
      = hdistManhattan (cpointThree.lon, cpointThree.lat) (0, 0) ∧
    cpointThree.id < cpointFive.id ∧ cpointFive.id ≠ cpointThree.id := by
  refine ⟨?_, ?_, ?_, ?_, ?_⟩
  · norm_num [get_closest_to_coords, get_avoid_rules, rulesEmptyTags,
      closest_candidate_ok, cpointFive, cpointThree, sort_by_distance,
      ordered_insert_dist, hdistManhattan]
  · norm_num [get_closest_to_coords, get_avoid_rules, rulesEmptyTags,
      closest_candidate_ok, cpointFive, cpointThree, sort_by_distance,
      ordered_insert_dist, hdistManhattan]
  · norm_num [hdistManhattan, cpointFive, cpointThree]
  · norm_num [cpointFive, cpointThree]
  · norm_num [cpointFive, cpointThree]

theorem decFixed_encFixed (w : Nat) :
    ∀ (n : Nat), n < 256 ^ w → ∀ (rest : List Nat),
      decFixed w (encFixed w n ++ rest) = some (n, rest) := by
  induction w with
  | zero =>
    intro n hn rest
    have h0 : n = 0 := Nat.lt_one_iff.mp (by simpa using hn)
    subst h0
    rfl
  | succ w ih =>
    intro n hn rest
    have hdiv : n / 256 < 256 ^ w := by
      rw [Nat.div_lt_iff_lt_mul (by norm_num : (0 : Nat) < 256)]
      calc n < 256 ^ (w + 1) := hn
        _ = 256 ^ w * 256 := by rw [pow_succ]
    have harg : encFixed (w + 1) n ++ rest
        = n % 256 :: (encFixed w (n / 256) ++ rest) := by
      simp [encFixed]
    rw [harg]
    simp [decFixed, ih (n / 256) hdiv rest, Nat.mod_add_div]

theorem decBool_encBool (b : Bool) (rest : List Nat) :
    decBool (encBool b ++ rest) = some (b, rest) := by
  cases b <;> simp [encBool, decBool]

theorem decListWithN_enc (dec : List Nat → Option (α × List Nat))
    (enc : α → List Nat) (l : List α)
    (H : ∀ a ∈ l, ∀ rest, dec (enc a ++ rest) = some (a, rest)) (rest : List Nat) :
    decListWithN dec l.length ((l.map enc).flatten ++ rest) = some (l, rest) := by
  induction l with
  | nil => simp [decListWithN]
  | cons a l ih =>
    have harg : (((a :: l).map enc).flatten ++ rest)
        = enc a ++ ((l.map enc).flatten ++ rest) := by simp
    rw [List.length_cons, harg]
    simp only [decListWithN, H a (List.mem_cons_self a l),
      ih fun x hx r => H x (List.mem_cons_of_mem _ hx) r]

theorem decListWith_enc (dec : List Nat → Option (α × List Nat))
    (enc : α → List Nat) (l : List α)
    (H : ∀ a ∈ l, ∀ rest, dec (enc a ++ rest) = some (a, rest))
    (hlen : wfList l) (rest : List Nat) :
    decListWith dec (encListWith enc l ++ rest) = some (l, rest) := by
  unfold encListWith decListWith
  rw [List.append_assoc, decFixed_encFixed 8 l.length hlen]
  exact decListWithN_enc dec enc l H rest

theorem decPairWith_enc (decA : List Nat → Option (α × List Nat))
    (decB : List Nat → Option (β × List Nat)) (encA : α → List Nat)
    (encB : β → List Nat) (x : α × β)
    (Ha : ∀ rest, decA (encA x.1 ++ rest) = some (x.1, rest))
    (Hb : ∀ rest, decB (encB x.2 ++ rest) = some (x.2, rest)) (rest : List Nat) :
    decPairWith decA decB (encPairWith encA encB x ++ rest) = some (x, rest) := by
  unfold encPairWith decPairWith
  simp only [List.append_assoc, Ha, Hb]

theorem decChar_encChar (c : Char) (rest : List Nat) :
    decChar (encChar c ++ rest) = some (c, rest) := by
  unfold encChar decChar
  have hlt : c.toNat < 256 ^ 4 :=
    lt_of_lt_of_le (UInt32.toNat_lt_size c.val) (by norm_num)
  simp only [decFixed_encFixed 4 c.toNat hlt rest]
  rw [if_pos (show Nat.isValidChar c.toNat from c.valid), Char.ofNat_toNat]

theorem decString_encString (s : String) (hs : wfString s) (rest : List Nat) :
    decString (encString s ++ rest) = some (s, rest) := by
  unfold encString decString
  rw [decListWith_enc decChar encChar s.data (fun a _ r => decChar_encChar a r) hs]
  rfl

theorem decRuleType_enc (t : MapDataRuleType) (rest : List Nat) :
    decRuleType (encRuleType t ++ rest) = some (t, rest) := by
  cases t <;>
    simp [encRuleType, decRuleType, decFixed_encFixed 4 0 (by norm_num) rest,
      decFixed_encFixed 4 1 (by norm_num) rest]

theorem decDirection_enc (d : LineDirection) (rest : List Nat) :
    decDirection (encDirection d ++ rest) = some (d, rest) := by
  cases d <;>
    simp [encDirection, decDirection, decFixed_encFixed 4 0 (by norm_num) rest,
      decFixed_encFixed 4 1 (by norm_num) rest,
      decFixed_encFixed 4 2 (by norm_num) rest]

theorem decRule_enc (r : MapDataRule) (hr : wfRule r) (rest : List Nat) :
    decRule (encRule r ++ rest) = some (r, rest) := by
  obtain ⟨h1, h2, h3, h4⟩ := hr
  unfold encRule decRule
  simp only [List.append_assoc,
    decListWith_enc (decFixed 8) (encFixed 8) r.from_lines
      (fun a ha rr => decFixed_encFixed 8 a (h1 a ha) rr) h2,
    decListWith_enc (decFixed 8) (encFixed 8) r.to_lines
      (fun a ha rr => decFixed_encFixed 8 a (h3 a ha) rr) h4,
    decRuleType_enc]

theorem decPoint_enc (p : MapDataPoint) (hp : wfPoint p) (rest : List Nat) :
    decPoint (encPoint p ++ rest) = some (p, rest) := by
  obtain ⟨hid, hlat, hlon, hln, hlnl, hru, hrul⟩ := hp
  unfold encPoint decPoint
  simp only [List.append_assoc,
    decFixed_encFixed 8 p.id hid, decFixed_encFixed 4 p.lat hlat,
    decFixed_encFixed 4 p.lon hlon,
    decListWith_enc (decFixed 8) (encFixed 8) p.lines
      (fun a ha rr => decFixed_encFixed 8 a (hln a ha) rr) hlnl,
    decListWith_enc decRule encRule p.rules
      (fun a ha rr => decRule_enc a (hru a ha) rr) hrul,
    decBool_encBool]

theorem decLine_enc (l : MapDataLine) (hl : wfLine l) (rest : List Nat) :
    decLine (encLine l ++ rest) = some (l, rest) := by
  obtain ⟨h1, h2, h3⟩ := hl
  unfold encLine decLine
  simp only [List.append_assoc,
    decFixed_encFixed 8 l.point1 h1, decFixed_encFixed 8 l.point2 h2,
    decDirection_enc, decFixed_encFixed 4 l.tags h3]

theorem decTagSet_enc (t : ElementTagSet) (ht : wfTagSet t) (rest : List Nat) :
    decTagSet (encTagSet t ++ rest) = some (t, rest) := by
  obtain ⟨h1, h2, h3, h4, h5⟩ := ht
  unfold encTagSet decTagSet
  simp only [List.append_assoc,
    decFixed_encFixed 4 t.name h1, decFixed_encFixed 4 t.hw_ref h2,
    decFixed_encFixed 4 t.highway h3, decFixed_encFixed 4 t.surface h4,
    decFixed_encFixed 4 t.smoothness h5]

theorem decTags_enc (t : ElementTags) (ht : wfTags t) (rest : List Nat) :
    decTags (encTags t ++ rest) = some (t, rest) := by
  obtain ⟨h1, h2, h3, h4, h5, h6, h7, h8⟩ := ht
  unfold encTags decTags
  simp only [List.append_assoc,
    decListWith_enc decString encString t.tag_values
      (fun a ha rr => decString_encString a (h1 a ha) rr) h2,
    decListWith_enc decTagSet encTagSet t.tag_sets
      (fun a ha rr => decTagSet_enc a (h3 a ha) rr) h4,
    decListWith_enc (decPairWith decString (decFixed 4))
      (encPairWith encString (encFixed 4)) t.tag_map
      (fun a ha rr => decPairWith_enc _ _ _ _ a
        (fun r2 => decString_encString a.1 (h5 a ha).1 r2)
        (fun r2 => decFixed_encFixed 4 a.2 (h5 a ha).2 r2) rr) h6,
    decListWith_enc (decPairWith decTagSet (decFixed 4))
      (encPairWith encTagSet (encFixed 4)) t.tag_set_map
      (fun a ha rr => decPairWith_enc _ _ _ _ a
        (fun r2 => decTagSet_enc a.1 (h7 a ha).1 r2)
        (fun r2 => decFixed_encFixed 4 a.2 (h7 a ha).2 r2) rr) h8]

theorem decGrid_enc (g : PointGrid) (hg : wfGrid g) (rest : List Nat) :
    decGrid (encGrid g ++ rest) = some (g, rest) := by
  obtain ⟨h1, h2⟩ := hg
  unfold encGrid decGrid
  rw [decListWith_enc (decPairWith (decFixed 8) (decListWith (decFixed 8)))
    (encPairWith (encFixed 8) (encListWith (encFixed 8))) g.cells
    (fun a ha rr => decPairWith_enc _ _ _ _ a
      (fun r2 => decFixed_encFixed 8 a.1 (h1 a ha).1 r2)
      (fun r2 => decListWith_enc (decFixed 8) (encFixed 8) a.2
        (fun x hx r3 => decFixed_encFixed 8 x ((h1 a ha).2.1 x hx) r3)
        (h1 a ha).2.2 r2) rr) h2]
  rfl

theorem unpack_pack (g : MapDataGraph) (hg : wfGraph g) :
    unpack (pack g) = some { g with points_map := [], ways_lines := [] } := by
  obtain ⟨hp, hpl, hl, hll, ht, hgr⟩ := hg
  unfold pack unpack
  have e1 : decListWith decPoint (encListWith encPoint g.points)
      = some (g.points, []) := by
    have := decListWith_enc decPoint encPoint g.points
      (fun a ha rr => decPoint_enc a (hp a ha) rr) hpl []
    simpa using this
  have e2 : decListWith decLine (encListWith encLine g.lines)
      = some (g.lines, []) := by
    have := decListWith_enc decLine encLine g.lines
      (fun a ha rr => decLine_enc a (hl a ha) rr) hll []
    simpa using this
  have e3 : decTags (encTags g.tags) = some (g.tags, []) := by
    have := decTags_enc g.tags ht []
    simpa using this
  have e4 : decGrid (encGrid g.point_grid) = some (g.point_grid, []) := by
    have := decGrid_enc g.point_grid hgr []
    simpa using this
  simp only [e1, e2, e3, e4]

/-- C6: for every well-formed frozen graph, the round trip
`unpack (pack g)` succeeds and reconstructs a graph whose points, lines,
tag table and proximity grid are structurally equal to `g`'s (the
builder-only `points_map` / `ways_lines` maps come back empty, as the
source installs `HashMap::new()` for them); all indices are carried
verbatim by the encoding. -/
theorem pack_unpack_round_trip (g : MapDataGraph) (hg : wfGraph g) :
    ∃ g2, unpack (pack g) = some g2 ∧ g2.points = g.points ∧
      g2.lines = g.lines ∧ g2.tags = g.tags ∧ g2.point_grid = g.point_grid :=
  ⟨_, unpack_pack g hg, rfl, rfl, rfl, rfl⟩

/-- C6 witness: the round trip at the concrete small graph. -/
theorem pack_unpack_round_trip_witness :
    wfGraph exGraphSmall ∧
    ∃ g2, unpack (pack exGraphSmall) = some g2 ∧ g2.points = exGraphSmall.points ∧
      g2.lines = exGraphSmall.lines ∧ g2.tags = exGraphSmall.tags ∧
      g2.point_grid = exGraphSmall.point_grid :=
  ⟨by decide, pack_unpack_round_trip exGraphSmall (by decide)⟩

theorem push_point_line_length (ps : List MapDataPoint) (i L : Nat) :
    (push_point_line ps i L).length = ps.length := by
  induction ps generalizing i with
  | nil => rfl
  | cons p ps ih =>
    cases i with
    | zero => simp [push_point_line]
    | succ i => simp [push_point_line, ih]

theorem push_point_line_get_ne (ps : List MapDataPoint) (i L j : Nat)
    (hne : j ≠ i) : (push_point_line ps i L).get? j = ps.get? j := by
  induction ps generalizing i j with
  | nil => rfl
  | cons p ps ih =>
    cases i with
    | zero =>
      cases j with
      | zero => exact absurd rfl hne
      | succ j => simp [push_point_line]
    | succ i =>
      cases j with
      | zero => simp [push_point_line]
      | succ j => simpa [push_point_line] using ih i j (fun h => hne (by rw [h]))

theorem push_point_line_get_eq (ps : List MapDataPoint) (i L : Nat)
    (hi : i < ps.length) :
    ∃ p, ps.get? i = some p ∧
      (push_point_line ps i L).get? i
        = some { p with lines := p.lines ++ [L] } := by
  induction ps generalizing i with
  | nil => simp at hi
  | cons p ps ih =>
    cases i with
    | zero => exact ⟨p, rfl, rfl⟩
    | succ i =>
      obtain ⟨p2, h1, h2⟩ := ih i (by simpa using hi)
      exact ⟨p2, by simpa using h1, by simpa [push_point_line] using h2⟩

theorem mem_lines_of_push_self (ps : List MapDataPoint) (i L : Nat)
    (hi : i < ps.length) : L ∈ lines_of (push_point_line ps i L) i := by
  obtain ⟨p, -, h2⟩ := push_point_line_get_eq ps i L hi
  rw [lines_of, h2]
  simp

theorem mem_lines_of_push_mono (ps : List MapDataPoint) (i L j x : Nat)
    (hx : x ∈ lines_of ps j) : x ∈ lines_of (push_point_line ps i L) j := by
  by_cases hji : j = i
  · subst hji
    by_cases hj : j < ps.length
    · obtain ⟨p, h1, h2⟩ := push_point_line_get_eq ps j L hj
      rw [lines_of, h2]
      rw [lines_of, h1] at hx
      simp at hx ⊢
      exact Or.inl hx
    · rw [lines_of, List.get?_eq_none.mpr (by omega)] at hx
      simp at hx
  · rwa [lines_of, push_point_line_get_ne ps i L j hji]

theorem get_point_ref_congr (g g2 : MapDataGraph)
    (h : g2.points_map = g.points_map) (id : Nat) :
    get_point_ref_by_id g2 id = get_point_ref_by_id g id := by
  unfold get_point_ref_by_id
  rw [h]

theorem materialize_line_spec (g : MapDataGraph) (w : OsmWay) (a b : Nat) :
    (materialize_line g w a b).1.points_map = g.points_map ∧
    (materialize_line g w a b).1.ways_lines = g.ways_lines ∧
    (materialize_line g w a b).2 = g.lines.length ∧
    (materialize_line g w a b).1.points
      = push_point_line (push_point_line g.points b g.lines.length)
          a g.lines.length ∧
    (∃ line, (materialize_line g w a b).1.lines = g.lines ++ [line] ∧
      line.point1 = a ∧ line.point2 = b) :=
  ⟨rfl, rfl, rfl, rfl, ⟨_, rfl, rfl, rfl⟩⟩

theorem chainPairs_nil (o : Option Nat) : chainPairs o [] = [] := by
  cases o <;> rfl

theorem get_point_ref_lt (g : MapDataGraph)
    (hvalid : ∀ kv ∈ g.points_map, kv.2 < g.points.length) {id idx : Nat}
    (h : get_point_ref_by_id g id = some idx) : idx < g.points.length := by
  unfold get_point_ref_by_id at h
  obtain ⟨kv, hkv, hkv2⟩ := Option.map_eq_some'.mp h
  exact hkv2 ▸ hvalid kv (List.mem_of_find?_eq_some hkv)

theorem insert_way_go_missing (osm_way : OsmWay) (missing : Nat)
    (rest : List Nat) :
    ∀ (pre : List Nat) (g : MapDataGraph) (prev : Option (Nat × Nat))
      (acc : List Nat),
      (∀ p ∈ pre, (get_point_ref_by_id g p).isSome) →
      get_point_ref_by_id g missing = none →
      (∀ q qi, prev = some (q, qi) → get_point_ref_by_id g q = some qi) →
      (∀ kv ∈ g.points_map, kv.2 < g.points.length) →
      ∃ g2, insert_way_go osm_way g (prev.map fun v => v.2) acc
          (pre ++ missing :: rest) = InsertWayStep.missing g2 missing ∧
        g2.ways_lines = g.ways_lines ∧
        g2.points_map = g.points_map ∧
        g2.points.length = g.points.length ∧
        g2.lines.length
          = g.lines.length + (chainPairs (prev.map fun v => v.1) pre).length ∧
        (∀ k, k < g.lines.length → g2.lines.get? k = g.lines.get? k) ∧
        (∀ idx x, x ∈ point_lines_at g idx → x ∈ point_lines_at g2 idx) ∧
        (∀ k a b, (chainPairs (prev.map fun v => v.1) pre).get? k = some (a, b) →
          ∃ line ia ib,
            g2.lines.get? (g.lines.length + k) = some line ∧
            get_point_ref_by_id g a = some ia ∧
            get_point_ref_by_id g b = some ib ∧
            line.point1 = ia ∧ line.point2 = ib ∧
            (g.lines.length + k) ∈ point_lines_at g2 ia ∧
            (g.lines.length + k) ∈ point_lines_at g2 ib) := by
  intro pre
  induction pre with
  | nil =>
    intro g prev acc hpre hmiss hprev hvalid
    refine ⟨g, ?_, rfl, rfl, rfl, by rw [chainPairs_nil]; rfl,
      fun k _ => rfl, fun idx x hx => hx, ?_⟩
    · show insert_way_go osm_way g (prev.map fun v => v.2) acc
        (missing :: rest) = InsertWayStep.missing g missing
      simp [insert_way_go, hmiss]
    · intro k a b hk
      rw [chainPairs_nil] at hk
      simp at hk
  | cons p ps ih =>
    intro g prev acc hpre hmiss hprev hvalid
    obtain ⟨pidx, hpidx⟩ :=
      Option.isSome_iff_exists.mp (hpre p (List.mem_cons_self p ps))
    cases prev with
    | none =>
      have step : insert_way_go osm_way g none acc
          ((p :: ps) ++ missing :: rest)
          = insert_way_go osm_way g (some pidx) acc (ps ++ missing :: rest) := by
        simp [insert_way_go, hpidx]
      have hres := ih g (some (p, pidx)) acc
        (fun r hr => hpre r (List.mem_cons_of_mem _ hr)) hmiss
        (fun q2 qi2 he => by cases he; exact hpidx) hvalid
      simp only [Option.map_some'] at hres
      have hcp : chainPairs none (p :: ps) = chainPairs (some p) ps := rfl
      simp only [Option.map_none']
      rw [hcp, step]
      exact hres
    | some qp =>
      obtain ⟨q, qi⟩ := qp
      have hq : get_point_ref_by_id g q = some qi := hprev q qi rfl
      obtain ⟨mpm, mwl, midx, mpoints, line, mlines, lp1, lp2⟩ :=
        materialize_line_spec g osm_way qi pidx
      have hlenpts : (materialize_line g osm_way qi pidx).1.points.length
          = g.points.length := by
        rw [mpoints, push_point_line_length, push_point_line_length]
      have hlineslen : (materialize_line g osm_way qi pidx).1.lines.length
          = g.lines.length + 1 := by rw [mlines]; simp
      have hgpr : ∀ id, get_point_ref_by_id (materialize_line g osm_way qi pidx).1 id
          = get_point_ref_by_id g id :=
        get_point_ref_congr g _ mpm
      have hres := ih (materialize_line g osm_way qi pidx).1 (some (p, pidx))
        (acc ++ [(materialize_line g osm_way qi pidx).2])
        (fun r hr => by rw [hgpr]; exact hpre r (List.mem_cons_of_mem _ hr))
        (by rw [hgpr]; exact hmiss)
        (fun q2 qi2 he => by cases he; rw [hgpr]; exact hpidx)
        (by rw [mpm, hlenpts]; exact hvalid)
      simp only [Option.map_some'] at hres
      obtain ⟨g2, hgo, hways, hpm, hptlen, hllen, hpres, hmono, hpairs⟩ := hres
      have step : insert_way_go osm_way g (some qi) acc
          ((p :: ps) ++ missing :: rest)
          = insert_way_go osm_way (materialize_line g osm_way qi pidx).1
            (some pidx) (acc ++ [(materialize_line g osm_way qi pidx).2])
            (ps ++ missing :: rest) := by
        simp [insert_way_go, hpidx]
      have hqi_lt : qi < g.points.length := get_point_ref_lt g hvalid hq
      have hpidx_lt : pidx < g.points.length := get_point_ref_lt g hvalid hpidx
      have hmono1 : ∀ idx x, x ∈ point_lines_at g idx →
          x ∈ point_lines_at (materialize_line g osm_way qi pidx).1 idx := by
        intro idx x hx
        rw [point_lines_at, mpoints]
        exact mem_lines_of_push_mono _ _ _ _ _
          (mem_lines_of_push_mono _ _ _ _ _ hx)
      have hmem_qi : g.lines.length
          ∈ point_lines_at (materialize_line g osm_way qi pidx).1 qi := by
        rw [point_lines_at, mpoints]
        exact mem_lines_of_push_self _ _ _
          (by rw [push_point_line_length]; exact hqi_lt)
      have hmem_pidx : g.lines.length
          ∈ point_lines_at (materialize_line g osm_way qi pidx).1 pidx := by
        rw [point_lines_at, mpoints]
        exact mem_lines_of_push_mono _ _ _ _ _
          (mem_lines_of_push_self _ _ _ hpidx_lt)
      have hcp : chainPairs (some q) (p :: ps)
          = (q, p) :: chainPairs (some p) ps := rfl
      simp only [Option.map_some']
      rw [hcp, step]
      refine ⟨g2, hgo, hways.trans mwl, hpm.trans mpm,
        hptlen.trans hlenpts, ?_, ?_, ?_, ?_⟩
      · rw [hllen, hlineslen]
        simp only [List.length_cons]
        omega
      · intro k hk
        rw [hpres k (by omega), mlines]
        exact List.get?_append hk
      · intro idx x hx
        exact hmono idx x (hmono1 idx x hx)
      · intro k a b hk
        cases k with
        | zero =>
          simp only [List.get?_cons_zero, Option.some.injEq, Prod.mk.injEq] at hk
          obtain ⟨rfl, rfl⟩ := hk
          refine ⟨line, qi, pidx, ?_, hq, hpidx, lp1, lp2, ?_, ?_⟩
          · rw [Nat.add_zero, hpres g.lines.length (by omega), mlines]
            exact List.get?_concat_length g.lines line
          · exact hmono qi g.lines.length hmem_qi
          · exact hmono pidx g.lines.length hmem_pidx
        | succ k =>
          simp only [List.get?_cons_succ] at hk
          obtain ⟨line2, ia, ib, hl, hia, hib, hl1, hl2, hm1, hm2⟩ :=
            hpairs k a b hk
          refine ⟨line2, ia, ib, ?_, ?_, ?_, hl1, hl2, ?_, ?_⟩
          · rw [show g.lines.length + (k + 1)
              = (materialize_line g osm_way qi pidx).1.lines.length + k by
                rw [hlineslen]; omega]
            exact hl
          · rw [← hgpr]; exact hia
          · rw [← hgpr]; exact hib
          · rw [show g.lines.length + (k + 1)
              = (materialize_line g osm_way qi pidx).1.lines.length + k by
                rw [hlineslen]; omega]
            exact hm1
          · rw [show g.lines.length + (k + 1)
              = (materialize_line g osm_way qi pidx).1.lines.length + k by
                rw [hlineslen]; omega]
            exact hm2

/-- C9: `insert_way` is not atomic on error. A way failing admissibility
returns `Ok` with the graph unchanged; a way whose id list is
`pre ++ missing :: rest`, with every id of `pre` present and `missing`
absent, returns `MissingPoint missing` while every line materialized from
the consecutive pairs of `pre` (the pairs `chainPairs none pre`) remains
appended to the line table and registered in both endpoints' incidence
lists — only the way-to-lines registration is skipped (`ways_lines` is
unchanged). -/
theorem insert_way_not_atomic (g : MapDataGraph) (w : OsmWay)
    (pre : List Nat) (missing : Nat) (rest : List Nat)
    (hids : w.point_ids = pre ++ missing :: rest)
    (hok : way_is_ok w = true)
    (hpre : ∀ p ∈ pre, (get_point_ref_by_id g p).isSome)
    (hmiss : get_point_ref_by_id g missing = none)
    (hvalid : ∀ kv ∈ g.points_map, kv.2 < g.points.length) :
    (∀ (g0 : MapDataGraph) (w0 : OsmWay), way_is_ok w0 = false →
      insert_way g0 w0 = (g0, none)) ∧
    (insert_way g w).2 = some (MapDataError.MissingPoint missing) ∧
    (insert_way g w).1.ways_lines = g.ways_lines ∧
    (insert_way g w).1.points_map = g.points_map ∧
    (insert_way g w).1.lines.length
      = g.lines.length + (chainPairs none pre).length ∧
    (∀ k a b, (chainPairs none pre).get? k = some (a, b) →
      ∃ line ia ib,
        (insert_way g w).1.lines.get? (g.lines.length + k) = some line ∧
        get_point_ref_by_id g a = some ia ∧ get_point_ref_by_id g b = some ib ∧
        line.point1 = ia ∧ line.point2 = ib ∧
        (g.lines.length + k) ∈ point_lines_at (insert_way g w).1 ia ∧
        (g.lines.length + k) ∈ point_lines_at (insert_way g w).1 ib) := by
  obtain ⟨g2, hgo, hways, hpm, hptlen, hllen, hpres, hmono, hpairs⟩ :=
    insert_way_go_missing w missing rest pre g none [] hpre hmiss
      (by intro q qi h; cases h) hvalid
  simp only [Option.map_none'] at hgo hllen hpairs
  have hiw : insert_way g w = (g2, some (MapDataError.MissingPoint missing)) := by
    unfold insert_way
    rw [hok]
    simp only [Bool.true_eq_false, if_false]
    rw [hids, hgo]
  refine ⟨?_, ?_, ?_, ?_, ?_, ?_⟩
  · intro g0 w0 h0
    unfold insert_way
    rw [h0]
    simp
  · rw [hiw]
  · rw [hiw]; exact hways
  · rw [hiw]; exact hpm
  · rw [hiw]; exact hllen
  · intro k a b hk
    obtain ⟨line, ia, ib, h1, h2, h3, h4, h5, h6, h7⟩ := hpairs k a b hk
    exact ⟨line, ia, ib, by rw [hiw]; exact h1, h2, h3, h4, h5,
      by rw [hiw]; exact h6, by rw [hiw]; exact h7⟩

/-- C9 witness: inserting the way `[1, 2, 99]` into the two-point graph. -/
theorem insert_way_not_atomic_witness :
    way_is_ok wayWithMissingPoint = true ∧
    get_point_ref_by_id exGraphTwoPoints 99 = none ∧
    (insert_way exGraphTwoPoints wayWithMissingPoint).2
      = some (MapDataError.MissingPoint 99) ∧
    (insert_way exGraphTwoPoints wayWithMissingPoint).1.ways_lines
      = exGraphTwoPoints.ways_lines ∧
    (insert_way exGraphTwoPoints wayWithMissingPoint).1.lines.length
      = exGraphTwoPoints.lines.length + (chainPairs none [1, 2]).length := by
  have h := insert_way_not_atomic exGraphTwoPoints wayWithMissingPoint [1, 2] 99 []
    (by decide) (by decide) (by decide) (by decide) (by decide)
  exact ⟨by decide, by decide, h.2.1, h.2.2.1, h.2.2.2.2.1⟩


/-! ### Navigator helper lemmas (C1) -/

/-- If one iteration maps a state to itself with no event, the loop spins
until the counter cap fires and returns `Stopped`. -/
theorem navLoop_fixpoint (g : NavGraph) (wcs : List WeightCalcN) (wf : Nat)
    (s : NavState) (h : navStep g wcs wf s = NavStepOut.next s none) :
    ∀ n, 1 ≤ n →
      navLoop g wcs wf s n = (NavigationResult.Stopped s.walker.route, n) := by
  intro n
  induction n with
  | zero => intro hn; omega
  | succ m ih =>
    intro _
    rw [navLoop, h]
    rcases Nat.eq_zero_or_pos m with hm | hm
    · subst hm; rfl
    · have hm' : m ≠ 0 := Nat.pos_iff_ne_zero.mp hm
      simp only [hm', if_false]
      rw [ih hm]

/-- The fork branch never returns `done` with anything but `Stuck`. -/
theorem nav_fork_branch_done (g : NavGraph) (wcs : List WeightCalcN)
    (s : NavState) (w2 : Walker) (ch : List Segment) (r : NavigationResult)
    (h : nav_fork_branch g wcs s w2 ch = NavStepOut.done r) :
    r = NavigationResult.Stuck := by
  simp only [nav_fork_branch] at h
  split at h
  · exact absurd h (by simp)
  · split at h
    · exact (NavStepOut.done.inj h).symm
    · exact absurd h (by simp)

/-- A `done` result of one navigator iteration is never `Stopped`:
`Stopped` can only come from the loop counter. -/
theorem navStep_no_stopped (g : NavGraph) (wcs : List WeightCalcN) (wf : Nat)
    (s : NavState) (r : NavigationResult)
    (h : navStep g wcs wf s = NavStepOut.done r) :
    ∀ rt, r ≠ NavigationResult.Stopped rt := by
  intro rt
  simp only [navStep] at h
  split at h
  · exact absurd h (by simp)
  · have hr : r = NavigationResult.Finished _ := (NavStepOut.done.inj h).symm
    rw [hr]; simp
  · have hr := nav_fork_branch_done g wcs s _ _ r h
    rw [hr]; simp
  · exact absurd h (by simp)

/-- The loop performs at most as many iterations as it has fuel. -/
theorem navLoop_count_le (g : NavGraph) (wcs : List WeightCalcN) (wf : Nat) :
    ∀ n s, (navLoop g wcs wf s n).2 ≤ n := by
  intro n
  induction n with
  | zero => intro s; exact Nat.le_refl 0
  | succ m ih =>
    intro s
    rw [navLoop]
    cases hstep : navStep g wcs wf s with
    | done r => simp
    | next s2 ev =>
      rcases Nat.eq_zero_or_pos m with hm | hm
      · subst hm; simp
      · have hm' : m ≠ 0 := Nat.pos_iff_ne_zero.mp hm
        simp only [hm', if_false]
        exact Nat.succ_le_succ (ih s2)

/-- A `Stopped` result is possible only when the loop has used all of its
fuel: the count then equals the fuel. -/
theorem navLoop_stopped_eq (g : NavGraph) (wcs : List WeightCalcN) (wf : Nat) :
    ∀ n s rt, (navLoop g wcs wf s n).1 = NavigationResult.Stopped rt →
      (navLoop g wcs wf s n).2 = n := by
  intro n
  induction n with
  | zero => intro s rt _; rfl
  | succ m ih =>
    intro s rt h
    rw [navLoop] at h ⊢
    cases hstep : navStep g wcs wf s with
    | done r =>
      rw [hstep] at h
      exact absurd h (navStep_no_stopped g wcs wf s r hstep rt)
    | next s2 ev =>
      rw [hstep] at h
      rcases Nat.eq_zero_or_pos m with hm | hm
      · subst hm; rfl
      · have hm' : m ≠ 0 := Nat.pos_iff_ne_zero.mp hm
        simp only [hm', if_false] at h ⊢
        rw [ih s2 rt h]

/-- C1, counterexample: the step limit of `generate_routes` is not the
configurable `BasicRuleStepLimit` (default 30,000) but the hard-coded
1,000,000 of navigator.rs 285: on a dead-end graph whose finish is
unreachable, the run performs 1,000,000 iterations — far more than the
claimed 30,000-step default bound — before returning `Stopped`. -/
theorem generate_routes_step_limit_counterexample :
    basic_rule_step_limit_default = 30000 ∧
    generate_routes exNavGraphDeadEnd [] 3 exItineraryDeadEnd
      = (NavigationResult.Stopped [], 1000000) ∧
    30000 < 1000000 := by
  refine ⟨rfl, ?_, by norm_num⟩
  have h : navStep exNavGraphDeadEnd [] 3
      { itinerary := exItineraryDeadEnd
        walker := { start := exItineraryDeadEnd.start
                    finish := exItineraryDeadEnd.finish
                    route := []
                    forkChoice := none }
        discard := [] }
      = NavStepOut.next
          { itinerary := exItineraryDeadEnd
            walker := { start := exItineraryDeadEnd.start
                        finish := exItineraryDeadEnd.finish
                        route := []
                        forkChoice := none }
            discard := [] } none := by decide
  exact navLoop_fixpoint exNavGraphDeadEnd [] 3 _ h 1000000 (by norm_num)

/-- C1 (amended): `generate_routes` is bounded by the hard-coded cap of
1,000,000 iterations (navigator.rs 285), not by the configurable
`BasicRuleStepLimit`, whose 30,000 default the loop never reads; it
terminates within that cap on any graph, and whenever it returns
`Stopped` it has performed exactly 1,000,000 iterations. -/
theorem generate_routes_step_cap (g : NavGraph) (wcs : List WeightCalcN)
    (walk_fuel : Nat) (it : NavItinerary) :
    (generate_routes g wcs walk_fuel it).2 ≤ STEP_LIMIT_HARD ∧
    (∀ rt, (generate_routes g wcs walk_fuel it).1
        = NavigationResult.Stopped rt →
      (generate_routes g wcs walk_fuel it).2 = STEP_LIMIT_HARD) := by
  constructor
  · exact navLoop_count_le g wcs walk_fuel STEP_LIMIT_HARD _
  · intro rt h
    exact navLoop_stopped_eq g wcs walk_fuel STEP_LIMIT_HARD _ rt h


/-! ### Association-list lemmas shared by the fork-weight map and the
discard memory (C2, C4) -/

/-- Updating the entries of key `p` in place does not change lookups of a
different key `q`. -/
theorem alist_find_update_ne {α : Type} (p : Nat) (v : α) (q : Nat)
    (hne : q ≠ p) :
    ∀ l : List (Nat × α),
      List.find? (fun kv => kv.1 == q)
          (l.map fun kv => if kv.1 == p then (p, v) else kv)
        = List.find? (fun kv => kv.1 == q) l := by
  intro l
  induction l with
  | nil => rfl
  | cons kv rest ih =>
    rw [List.map_cons]
    by_cases hk : kv.1 = p
    · rw [if_pos (by simp [hk])]
      rw [List.find?_cons_of_neg _ (by simp; omega),
          List.find?_cons_of_neg _ (by simp [hk]; omega)]
      exact ih
    · by_cases hq : kv.1 = q
      · rw [if_neg (by simp [hk])]
        rw [List.find?_cons_of_pos _ (by simp [hq]),
            List.find?_cons_of_pos _ (by simp [hq])]
      · rw [if_neg (by simp [hk])]
        rw [List.find?_cons_of_neg _ (by simp [hq]),
            List.find?_cons_of_neg _ (by simp [hq])]
        exact ih

/-- If some entry has key `p`, the in-place update makes the lookup of `p`
find the updated value. -/
theorem alist_find_update_self {α : Type} (p : Nat) (v : α) :
    ∀ l : List (Nat × α),
      (List.find? (fun kv => kv.1 == p) l).isSome = true →
      List.find? (fun kv => kv.1 == p)
          (l.map fun kv => if kv.1 == p then (p, v) else kv)
        = some (p, v) := by
  intro l
  induction l with
  | nil => intro h; simp [List.find?] at h
  | cons kv rest ih =>
    intro h
    rw [List.map_cons]
    by_cases hk : kv.1 = p
    · rw [if_pos (by simp [hk])]
      exact List.find?_cons_of_pos _ (by simp)
    · rw [List.find?_cons_of_neg _ (by simp [hk])] at h
      rw [if_neg (by simp [hk])]
      rw [List.find?_cons_of_neg _ (by simp [hk])]
      exact ih h

/-- Appending entries whose keys all differ from `q` does not change the
lookup of `q`. -/
theorem alist_find_append_ne {α : Type} (q : Nat) (l2 : List (Nat × α))
    (h2 : ∀ kv ∈ l2, kv.1 ≠ q) :
    ∀ l : List (Nat × α),
      List.find? (fun kv => kv.1 == q) (l ++ l2)
        = List.find? (fun kv => kv.1 == q) l := by
  intro l
  induction l with
  | nil =>
    simp only [List.nil_append, List.find?]
    rw [List.find?_eq_none]
    intro kv hm
    simp [h2 kv hm]
  | cons kv rest ih =>
    by_cases hq : kv.1 = q
    · simp [hq]
    · simp [hq, ih]

/-- A failed lookup lets `find?` fall through an appended prefix. -/
theorem find_none_append {β : Type} (q : β → Bool) :
    ∀ l1 l2 : List β, List.find? q l1 = none →
      List.find? q (l1 ++ l2) = List.find? q l2 := by
  intro l1
  induction l1 with
  | nil => intro l2 _; rfl
  | cons b rest ih =>
    intro l2 h
    by_cases hb : q b = true
    · rw [List.find?_cons_of_pos _ hb] at h; cases h
    · rw [List.find?_cons_of_neg _ hb] at h
      rw [List.cons_append, List.find?_cons_of_neg _ hb]
      exact ih l2 h

/-! ### Fork-weight lemmas (C2) -/

/-- Inserting key `p` does not change lookups of other keys. -/
theorem fwget_insert_ne (fw : ForkWeights) (p v q : Nat) (h : q ≠ p) :
    fork_weights_get (fork_weights_insert fw p v) q = fork_weights_get fw q := by
  unfold fork_weights_insert fork_weights_get
  split
  · rw [alist_find_update_ne p v q h fw]
  · rw [alist_find_append_ne q [(p, v)] (by simp [Ne.symm h]) fw]

/-- Looking up the key just inserted finds the inserted value. -/
theorem fwget_insert_self (fw : ForkWeights) (p v : Nat) :
    fork_weights_get (fork_weights_insert fw p v) p = some v := by
  unfold fork_weights_insert fork_weights_get
  split
  case isTrue h =>
    have hs : (List.find? (fun kv => kv.1 == p) fw).isSome = true := by
      rcases List.any_eq_true.mp h with ⟨kv, hm, hp⟩
      exact List.find?_isSome.mpr ⟨kv, hm, hp⟩
    rw [alist_find_update_self p v fw hs]
    rfl
  case isFalse h =>
    have hnone : List.find? (fun kv => kv.1 == p) fw = none := by
      rw [List.find?_eq_none]
      intro kv hm hp
      exact h (List.any_eq_true.mpr ⟨kv, hm, hp⟩)
    rw [find_none_append _ fw [(p, v)] hnone]
    simp [List.find?]

/-- A choice with any `DoNotUse` weight leaves the map untouched. -/
theorem fwget_add_skip (fw : ForkWeights) (p : Nat)
    (ws : List WeightCalcResult)
    (hbad : (ws.all fun w => !(w == WeightCalcResult.DoNotUse)) = false) :
    add_calc_result fw p ws = fw := by
  unfold add_calc_result
  rw [hbad]
  rfl

/-- `add_calc_result` does not change lookups of other keys. -/
theorem fwget_add_ne (fw : ForkWeights) (p : Nat)
    (ws : List WeightCalcResult) (q : Nat) (h : q ≠ p) :
    fork_weights_get (add_calc_result fw p ws) q = fork_weights_get fw q := by
  unfold add_calc_result
  split
  · exact fwget_insert_ne fw p _ q h
  · rfl

/-- On a fresh key, a fully surviving choice records exactly the sum of its
`UseWithWeight` values. -/
theorem fwget_add_self (fw : ForkWeights) (p : Nat)
    (ws : List WeightCalcResult)
    (h0 : fork_weights_get fw p = none)
    (hall : (ws.all fun w => !(w == WeightCalcResult.DoNotUse)) = true) :
    fork_weights_get (add_calc_result fw p ws) p
      = some ((ws.map weightValue).sum) := by
  unfold add_calc_result
  rw [if_pos hall, h0, fwget_insert_self]
  simp

/-- A fold of `add_calc_result` over segments never touches a key that is
not among their end-points. -/
theorem fold_add_preserve (wof : Segment → List WeightCalcResult) :
    ∀ (l : List Segment) (fw : ForkWeights) (key : Nat),
      key ∉ l.map Segment.endPoint →
      fork_weights_get
          (l.foldl (fun acc s2 => add_calc_result acc s2.endPoint (wof s2)) fw)
          key
        = fork_weights_get fw key := by
  intro l
  induction l with
  | nil => intro fw key _; rfl
  | cons s2 rest ih =>
    intro fw key hk
    simp only [List.map_cons, List.mem_cons, not_or] at hk
    rw [List.foldl_cons, ih _ key hk.2,
        fwget_add_ne fw s2.endPoint (wof s2) key hk.1]

/-- Scoring fold, per-key result: when the fork's end-points are distinct,
the entry of a choice is `none` exactly when some weight said `DoNotUse`,
and otherwise the sum of its weights. -/
theorem fold_add_lookup (wof : Segment → List WeightCalcResult) :
    ∀ (l : List Segment) (fw : ForkWeights) (seg : Segment),
      seg ∈ l → (l.map Segment.endPoint).Nodup →
      fork_weights_get fw seg.endPoint = none →
      fork_weights_get
          (l.foldl (fun acc s2 => add_calc_result acc s2.endPoint (wof s2)) fw)
          seg.endPoint
        = if ((wof seg).all fun w => !(w == WeightCalcResult.DoNotUse)) = true
          then some (((wof seg).map weightValue).sum) else none := by
  intro l
  induction l with
  | nil => intro fw seg h; cases h
  | cons s2 rest ih =>
    intro fw seg hmem hnd h0
    rw [List.foldl_cons]
    rcases List.mem_cons.mp hmem with heq | hmem2
    · subst heq
      have hout : seg.endPoint ∉ rest.map Segment.endPoint := by
        rw [List.map_cons, List.nodup_cons] at hnd
        exact hnd.1
      rw [fold_add_preserve wof rest _ _ hout]
      by_cases hall :
          ((wof seg).all fun w => !(w == WeightCalcResult.DoNotUse)) = true
      · rw [if_pos hall, fwget_add_self fw _ _ h0 hall]
      · rw [if_neg hall,
            fwget_add_skip fw _ _ (Bool.not_eq_true _ ▸ hall)]
        exact h0
    · have hne : seg.endPoint ≠ s2.endPoint := by
        intro hc
        rw [List.map_cons, List.nodup_cons] at hnd
        exact hnd.1 (hc ▸ List.mem_map_of_mem Segment.endPoint hmem2)
      have h0' : fork_weights_get
          (add_calc_result fw s2.endPoint (wof s2)) seg.endPoint = none := by
        rw [fwget_add_ne fw _ _ _ hne]
        exact h0
      have hnd2 : (rest.map Segment.endPoint).Nodup := by
        rw [List.map_cons, List.nodup_cons] at hnd
        exact hnd.2
      exact ih _ seg hmem2 hnd2 h0'

/-- Inserting into the weight-descending order never yields the empty
list. -/
theorem ordered_insert_weight_ne_nil (x : Nat × Nat) :
    ∀ l : ForkWeights, ordered_insert_weight x l ≠ [] := by
  intro l
  cases l with
  | nil => simp [ordered_insert_weight]
  | cons y ys =>
    rw [ordered_insert_weight]
    split <;> simp

/-- The sorted view is empty only for the empty weight map. -/
theorem get_choices_sorted_eq_nil (fw : ForkWeights)
    (h : get_choices_sorted_by_weight fw = []) : fw = [] := by
  cases fw with
  | nil => rfl
  | cons a l =>
    rw [get_choices_sorted_by_weight, List.foldr_cons] at h
    exact absurd h (ordered_insert_weight_ne_nil a _)

/-- Unfolding the sort one element at a time. -/
theorem get_choices_sorted_cons (a : Nat × Nat) (l : ForkWeights) :
    get_choices_sorted_by_weight (a :: l)
      = ordered_insert_weight a (get_choices_sorted_by_weight l) := rfl

/-- The head of the descending stable sort is the first entry of maximal
weight in insertion order. -/
theorem get_choices_sorted_head :
    ∀ (fw : ForkWeights) (x : Nat × Nat) (rest : ForkWeights),
      get_choices_sorted_by_weight fw = x :: rest → is_first_max fw x := by
  intro fw
  induction fw with
  | nil => intro x rest h; cases h
  | cons a l ih =>
    intro x rest h
    rw [get_choices_sorted_cons] at h
    cases hs : get_choices_sorted_by_weight l with
    | nil =>
      have hl : l = [] := get_choices_sorted_eq_nil l hs
      rw [hs, ordered_insert_weight] at h
      obtain ⟨hx, -⟩ := List.cons.inj h
      subst hx
      subst hl
      exact ⟨[], [], rfl, by simp, by simp⟩
    | cons y ys =>
      rw [hs, ordered_insert_weight] at h
      obtain ⟨pre, post, hdec, hlt, hub⟩ := ih y ys hs
      split at h
      case isTrue hle =>
        obtain ⟨hx, -⟩ := List.cons.inj h
        subst hx
        refine ⟨[], l, rfl, by simp, ?_⟩
        intro z hz
        rcases List.mem_cons.mp hz with hz | hz
        · rw [hz]
        · exact Nat.le_trans (hub z hz) hle
      case isFalse hgt =>
        obtain ⟨hx, -⟩ := List.cons.inj h
        subst hx
        refine ⟨a :: pre, post, by rw [hdec, List.cons_append], ?_, ?_⟩
        · intro z hz
          rcases List.mem_cons.mp hz with hz | hz
          · rw [hz]; omega
          · exact hlt z hz
        · intro z hz
          rcases List.mem_cons.mp hz with hz | hz
          · rw [hz]; omega
          · exact hub z hz

/-- A first-maximal entry is an entry. -/
theorem is_first_max_mem (fw : ForkWeights) (x : Nat × Nat)
    (h : is_first_max fw x) : x ∈ fw := by
  obtain ⟨pre, post, hdec, -, -⟩ := h
  rw [hdec]
  exact List.mem_append_right pre (List.mem_cons_self x post)

/-- Keys of the map after an insert: an old key or the inserted one. -/
theorem mem_insert_keys (fw : ForkWeights) (p v : Nat) (kv : Nat × Nat)
    (h : kv ∈ fork_weights_insert fw p v) :
    kv.1 ∈ fw.map Prod.fst ∨ kv.1 = p := by
  unfold fork_weights_insert at h
  split at h
  · rcases List.mem_map.mp h with ⟨kv0, hm, he⟩
    by_cases hk : kv0.1 = p
    · right
      rw [← he, if_pos (by simp [hk])]
    · left
      rw [← he, if_neg (by simp [hk])]
      exact List.mem_map_of_mem Prod.fst hm
  · rcases List.mem_append.mp h with h1 | h1
    · left
      exact List.mem_map_of_mem Prod.fst h1
    · right
      simp only [List.mem_singleton] at h1
      rw [h1]

/-- Keys of the map after `add_calc_result`: an old key or the scored
choice point. -/
theorem mem_add_keys (fw : ForkWeights) (p : Nat)
    (ws : List WeightCalcResult) (kv : Nat × Nat)
    (h : kv ∈ add_calc_result fw p ws) :
    kv.1 ∈ fw.map Prod.fst ∨ kv.1 = p := by
  unfold add_calc_result at h
  split at h
  · exact mem_insert_keys fw p _ kv h
  · left
    exact List.mem_map_of_mem Prod.fst h

/-- Every key of the scoring fold's result is the end-point of one of the
scored segments (or a key of the accumulator). -/
theorem fold_add_keys (wof : Segment → List WeightCalcResult) :
    ∀ (l : List Segment) (fw : ForkWeights) (kv : Nat × Nat),
      kv ∈ l.foldl (fun acc s2 => add_calc_result acc s2.endPoint (wof s2)) fw →
      kv.1 ∈ fw.map Prod.fst ∨ kv.1 ∈ l.map Segment.endPoint := by
  intro l
  induction l with
  | nil =>
    intro fw kv h
    left
    exact List.mem_map_of_mem Prod.fst h
  | cons s2 rest ih =>
    intro fw kv h
    rw [List.foldl_cons] at h
    rcases ih _ kv h with h1 | h1
    · rcases List.mem_map.mp h1 with ⟨kv0, hm0, he0⟩
      rcases mem_add_keys fw s2.endPoint (wof s2) kv0 hm0 with h2 | h2
      · rw [he0] at h2
        left
        exact h2
      · right
        rw [List.map_cons]
        exact List.mem_cons.mpr (Or.inl (he0 ▸ h2))
    · right
      rw [List.map_cons]
      exact List.mem_cons_of_mem _ h1

/-- Surviving the discard filter means not being in the discard list. -/
theorem mem_exclude_not_in (segs : List Segment) (pts : List Nat) (x : Nat)
    (h : x ∈ (exclude_segments_where_points_in segs pts).map Segment.endPoint) :
    x ∉ pts := by
  rcases List.mem_map.mp h with ⟨seg, hmem, he⟩
  have hp := List.of_mem_filter hmem
  rw [he] at hp
  intro hc
  simp [hc] at hp

/-- With no scored choice left, the fork branch backtracks: it either
reports `Stuck` (no junction remains) or continues from the walker moved
back to the previous fork, recording nothing. -/
theorem nav_fork_branch_empty (g : NavGraph) (wcs : List WeightCalcN)
    (s : NavState) (w2 : Walker) (ch : List Segment)
    (h : compute_fork_weights wcs w2.route
        (check_set_next g s.itinerary (walker_last_point w2))
        (exclude_segments_where_points_in ch
          (discard_set s (walker_last_point w2))) = []) :
    nav_fork_branch g wcs s w2 ch = NavStepOut.done NavigationResult.Stuck ∨
    nav_fork_branch g wcs s w2 ch
      = NavStepOut.next
          { itinerary := check_set_next g s.itinerary (walker_last_point w2)
            walker := (move_backwards_to_prev_fork g w2).1
            discard := s.discard } none := by
  simp only [nav_fork_branch]
  simp only [discard_set] at h
  rw [h]
  have hnone : get_choice_by_index_from_heaviest [] 0 = none := rfl
  rw [hnone]
  split
  · rename_i c heq
    cases heq
  · split
    · left; rfl
    · right; rfl

/-- C2, counterexample: the tie-break among equal-weight fork choices is
not deterministic. The weight map with entries {2 ↦ 1, 3 ↦ 1} — two
choices of equal (tied) weight — can be yielded by the `HashMap`'s
randomized iteration in either order, and the navigator's pick follows
whichever order it receives: one order picks end-point 2, the other picks
end-point 3, refuting the claimed stable deterministic tie-break. -/
theorem fork_tie_break_counterexample :
    List.Perm [(2, 1), (3, 1)] [(3, 1), (2, 1)] ∧
    (∀ kv ∈ ([(2, 1), (3, 1)] : ForkWeights), kv.2 = 1) ∧
    get_choice_by_index_from_heaviest [(2, 1), (3, 1)] 0 = some 2 ∧
    get_choice_by_index_from_heaviest [(3, 1), (2, 1)] 0 = some 3 ∧
    (2 : Nat) ≠ 3 := by
  exact ⟨by decide, by decide, by decide, by decide, by decide⟩

/-- C2 (amended): fork scoring (navigator.rs 74-110 and 203-271). When the
fork choices' end-points are distinct: a choice for which any weight
function returns `DoNotUse` gets no entry in the weight map; a surviving
choice's entry is the sum of its `UseWithWeight` values; for every
iteration order the randomized `HashMap` may yield of a non-empty weight
map, the navigator's pick (index 0 of the weight-descending stable sort of
that order) is an entry of maximal summed weight — the maximum is
deterministic, but which of several tied maximal entries is picked follows
the iteration order and is not deterministic; and when no choice survives
the discard filter the fork branch backtracks (moving the walker back, or
`Stuck` when no junction remains). -/
theorem fork_scoring_amended (g : NavGraph) (wcs : List WeightCalcN)
    (route : List Segment) (it : NavItinerary) (choices : List Segment)
    (s : NavState) (w2 : Walker)
    (hnd : (choices.map Segment.endPoint).Nodup) :
    (∀ seg ∈ choices,
      ((wcs.map fun f => f (fork_input route it choices seg)).all
          fun w => !(w == WeightCalcResult.DoNotUse)) = false →
        fork_weights_get (compute_fork_weights wcs route it choices)
          seg.endPoint = none) ∧
    (∀ seg ∈ choices,
      ((wcs.map fun f => f (fork_input route it choices seg)).all
          fun w => !(w == WeightCalcResult.DoNotUse)) = true →
        fork_weights_get (compute_fork_weights wcs route it choices)
            seg.endPoint
          = some (((wcs.map fun f => f (fork_input route it choices seg)).map
              weightValue).sum)) ∧
    (∀ fw fw2 : ForkWeights, fw2.Perm fw → fw ≠ [] →
      ∃ c wmax,
        get_choice_by_index_from_heaviest fw2 0 = some c ∧
        (c, wmax) ∈ fw ∧
        ∀ kv ∈ fw, kv.2 ≤ wmax) ∧
    (compute_fork_weights wcs w2.route
          (check_set_next g s.itinerary (walker_last_point w2))
          (exclude_segments_where_points_in choices
            (discard_set s (walker_last_point w2))) = [] →
      nav_fork_branch g wcs s w2 choices
          = NavStepOut.done NavigationResult.Stuck ∨
      nav_fork_branch g wcs s w2 choices
        = NavStepOut.next
            { itinerary := check_set_next g s.itinerary (walker_last_point w2)
              walker := (move_backwards_to_prev_fork g w2).1
              discard := s.discard } none) := by
  refine ⟨?_, ?_, ?_, nav_fork_branch_empty g wcs s w2 choices⟩
  · intro seg hm hbad
    have h := fold_add_lookup
      (fun sg => wcs.map fun f => f (fork_input route it choices sg))
      choices [] seg hm hnd rfl
    exact h.trans (if_neg (by simp [hbad]))
  · intro seg hm hall
    have h := fold_add_lookup
      (fun sg => wcs.map fun f => f (fork_input route it choices sg))
      choices [] seg hm hnd rfl
    exact h.trans (if_pos hall)
  · intro fw fw2 hperm hne
    have hne2 : fw2 ≠ [] := by
      intro h0
      exact hne ((h0 ▸ hperm).symm.eq_nil)
    cases hs : get_choices_sorted_by_weight fw2 with
    | nil => exact absurd (get_choices_sorted_eq_nil fw2 hs) hne2
    | cons x rest =>
      have hmax := get_choices_sorted_head fw2 x rest hs
      refine ⟨x.1, x.2, ?_, ?_, ?_⟩
      · rw [get_choice_by_index_from_heaviest, hs]
        rfl
      · exact hperm.mem_iff.mp (is_first_max_mem fw2 x hmax)
      · intro kv hkv
        obtain ⟨-, -, -, -, hub⟩ := hmax
        exact hub kv (hperm.mem_iff.mpr hkv)

/-- C2, witness: a two-choice fork with distinct end-points 2 and 3, a
single constant weight function, and an iteration order different from the
insertion order of the weight map; the pick is an entry of maximal
weight. -/
theorem fork_scoring_amended_witness :
    ((([⟨1, 2⟩, ⟨2, 3⟩] : List Segment).map Segment.endPoint).Nodup) ∧
    (∃ c wmax,
      get_choice_by_index_from_heaviest [(3, 1), (2, 1)] 0 = some c ∧
      (c, wmax) ∈ ([(2, 1), (3, 1)] : ForkWeights) ∧
      ∀ kv ∈ ([(2, 1), (3, 1)] : ForkWeights), kv.2 ≤ wmax) := by
  refine ⟨by decide, ?_⟩
  exact (fork_scoring_amended exNavGraphFork exWeightOne [] exItineraryFork
    [⟨1, 2⟩, ⟨2, 3⟩] exNavStateFork
    { start := 0, finish := 2, route := [], forkChoice := none }
    (by decide)).2.2.1 [(2, 1), (3, 1)] [(3, 1), (2, 1)] (by decide) (by decide)

/-! ### Discard-memory lemmas (C4) -/

/-- Recording a discard for fork point `p` does not change another fork
point's set. -/
theorem discard_get_add_ne (d : DiscardedForkChoices) (p c q : Nat)
    (h : q ≠ p) :
    get_discarded_choices_for_point (add_discarded_choice d p c) q
      = get_discarded_choices_for_point d q := by
  unfold add_discarded_choice
  split
  · unfold get_discarded_choices_for_point
    exact congrArg (Option.map fun kv => kv.2) (alist_find_update_ne p _ q h d)
  · unfold get_discarded_choices_for_point
    exact congrArg (Option.map fun kv => kv.2)
      (alist_find_append_ne q [(p, [c])] (by simp [Ne.symm h]) d)

/-- Recording a discard for fork point `p` extends its set by the new
member (and leaves it unchanged when the member is already present). -/
theorem discard_get_add_self (d : DiscardedForkChoices) (p c : Nat) :
    get_discarded_choices_for_point (add_discarded_choice d p c) p
      = some ((get_discarded_choices_for_point d p).getD []
          ++ (if c ∈ (get_discarded_choices_for_point d p).getD []
              then [] else [c])) := by
  unfold add_discarded_choice
  split
  case h_1 existing heq =>
    rw [heq]
    unfold get_discarded_choices_for_point
    have hsome : (List.find? (fun kv => kv.1 == p) d).isSome = true := by
      unfold get_discarded_choices_for_point at heq
      cases hfind : List.find? (fun kv => kv.1 == p) d with
      | none => rw [hfind] at heq; cases heq
      | some kv => rfl
    rw [alist_find_update_self p _ d hsome]
    by_cases hc : c ∈ existing
    · simp [hc]
    · simp [hc]
  case h_2 heq =>
    rw [heq]
    unfold get_discarded_choices_for_point
    have hnone : List.find? (fun kv => kv.1 == p) d = none := by
      unfold get_discarded_choices_for_point at heq
      cases hfind : List.find? (fun kv => kv.1 == p) d with
      | none => rfl
      | some kv => rw [hfind] at heq; cases heq
    rw [find_none_append _ d [(p, [c])] hnone]
    simp [List.find?]

/-- Discard sets only grow. -/
theorem discard_mem_add (d : DiscardedForkChoices) (p c q x : Nat)
    (h : x ∈ (get_discarded_choices_for_point d q).getD []) :
    x ∈ (get_discarded_choices_for_point (add_discarded_choice d p c) q).getD [] := by
  by_cases hq : q = p
  · subst hq
    rw [discard_get_add_self d q c]
    exact List.mem_append_left _ h
  · rw [discard_get_add_ne d p c q hq]
    exact h

/-- Anatomy of a recording fork step: the event's fork point is the
walker's position, its chosen end-point was not yet discarded there (it
survived the exclusion filter), the new state's memory is exactly the old
one extended by this record, and the walker's next fork choice is the
chosen point. -/
theorem nav_fork_branch_event (g : NavGraph) (wcs : List WeightCalcN)
    (s : NavState) (w2 : Walker) (ch : List Segment) (s2 : NavState)
    (p c : Nat)
    (h : nav_fork_branch g wcs s w2 ch = NavStepOut.next s2 (some (p, c))) :
    p = walker_last_point w2 ∧
    c ∉ discard_set s p ∧
    s2.discard = add_discarded_choice s.discard p c ∧
    s2.walker.forkChoice = some c := by
  simp only [nav_fork_branch] at h
  split at h
  case h_1 chosen heq =>
    obtain ⟨hs2, hev⟩ := NavStepOut.next.inj h
    have hpair := Option.some.inj hev
    have hp : walker_last_point w2 = p := congrArg Prod.fst hpair
    have hcc : chosen = c := congrArg Prod.snd hpair
    subst hp
    subst hcc
    refine ⟨rfl, ?_, by rw [← hs2], by rw [← hs2]⟩
    unfold get_choice_by_index_from_heaviest at heq
    cases hs : get_choices_sorted_by_weight
        (compute_fork_weights wcs w2.route
          (check_set_next g s.itinerary (walker_last_point w2))
          (exclude_segments_where_points_in ch
            ((get_discarded_choices_for_point s.discard
              (walker_last_point w2)).getD []))) with
    | nil => rw [hs] at heq; cases heq
    | cons kv rest =>
      rw [hs] at heq
      simp only [List.get?_cons_zero, Option.map_some'] at heq
      have hmax := get_choices_sorted_head _ kv rest hs
      have hmem := is_first_max_mem _ kv hmax
      have hmem2 : kv ∈ List.foldl
          (fun acc sg => add_calc_result acc sg.endPoint
            (wcs.map fun f => f
              { route := w2.route
                itinerary := check_set_next g s.itinerary (walker_last_point w2)
                currentForkSegment := sg
                allForkSegments :=
                  exclude_segments_where_points_in ch
                    ((get_discarded_choices_for_point s.discard
                      (walker_last_point w2)).getD []) })) []
          (exclude_segments_where_points_in ch
            ((get_discarded_choices_for_point s.discard
              (walker_last_point w2)).getD [])) := hmem
      have hkeys := fold_add_keys _ _ [] kv hmem2
      rcases hkeys with hk0 | hk1
      · simp at hk0
      · have hni := mem_exclude_not_in ch
          ((get_discarded_choices_for_point s.discard
            (walker_last_point w2)).getD []) kv.1 hk1
        have hkv : kv.1 = chosen := Option.some.inj heq
        rw [hkv] at hni
        exact hni
  case h_2 heq =>
    split at h
    · cases h
    · obtain ⟨-, hev⟩ := NavStepOut.next.inj h
      cases hev

/-- A non-recording continuation of the fork branch leaves the discard
memory untouched. -/
theorem nav_fork_branch_next_none (g : NavGraph) (wcs : List WeightCalcN)
    (s : NavState) (w2 : Walker) (ch : List Segment) (s2 : NavState)
    (h : nav_fork_branch g wcs s w2 ch = NavStepOut.next s2 none) :
    s2.discard = s.discard := by
  simp only [nav_fork_branch] at h
  split at h
  · obtain ⟨-, hev⟩ := NavStepOut.next.inj h
    cases hev
  · split at h
    · cases h
    · obtain ⟨hs2, -⟩ := NavStepOut.next.inj h
      rw [← hs2]

/-- Anatomy of a recording navigator iteration. -/
theorem navStep_event (g : NavGraph) (wcs : List WeightCalcN) (wf : Nat)
    (s s2 : NavState) (p c : Nat)
    (h : navStep g wcs wf s = NavStepOut.next s2 (some (p, c))) :
    c ∉ discard_set s p ∧
    discard_set s2 p = discard_set s p ++ [c] ∧
    (∀ q x, x ∈ discard_set s q → x ∈ discard_set s2 q) ∧
    s2.walker.forkChoice = some c := by
  simp only [navStep] at h
  split at h
  · obtain ⟨-, hev⟩ := NavStepOut.next.inj h
    cases hev
  · cases h
  · rename_i fork_choices w2 heq
    obtain ⟨hp, hnotin, hdisc, hfc⟩ :=
      nav_fork_branch_event g wcs s w2 fork_choices s2 p c h
    refine ⟨hnotin, ?_, ?_, hfc⟩
    · simp only [discard_set, hdisc]
      rw [discard_get_add_self s.discard p c,
          if_neg (by simpa [discard_set] using hnotin)]
      simp
    · intro q x hx
      simp only [discard_set, hdisc]
      exact discard_mem_add s.discard p c q x (by simpa [discard_set] using hx)
  · obtain ⟨-, hev⟩ := NavStepOut.next.inj h
    cases hev

/-- A non-recording navigator iteration leaves the discard memory
untouched. -/
theorem navStep_next_none_discard (g : NavGraph) (wcs : List WeightCalcN)
    (wf : Nat) (s s2 : NavState)
    (h : navStep g wcs wf s = NavStepOut.next s2 none) :
    s2.discard = s.discard := by
  simp only [navStep] at h
  split at h
  · obtain ⟨hs2, -⟩ := NavStepOut.next.inj h
    rw [← hs2]
  · cases h
  · rename_i fork_choices w2 heq
    exact nav_fork_branch_next_none g wcs s w2 fork_choices s2 h
  · obtain ⟨hs2, -⟩ := NavStepOut.next.inj h
    rw [← hs2]

/-- Across any continuing iteration, discard sets grow monotonically. -/
theorem navStep_discard_mono (g : NavGraph) (wcs : List WeightCalcN)
    (wf : Nat) (s s2 : NavState) (ev : Option (Nat × Nat))
    (h : navStep g wcs wf s = NavStepOut.next s2 ev) :
    ∀ q x, x ∈ discard_set s q → x ∈ discard_set s2 q := by
  cases ev with
  | none =>
    intro q x hx
    simp only [discard_set, navStep_next_none_discard g wcs wf s s2 h]
    simpa [discard_set] using hx
  | some pc =>
    obtain ⟨p, c⟩ := pc
    exact (navStep_event g wcs wf s s2 p c h).2.2.1

/-- A pair already in the discard memory is never recorded again later in
the run. -/
theorem navTrace_not_mem (g : NavGraph) (wcs : List WeightCalcN) (wf : Nat) :
    ∀ (n : Nat) (s : NavState) (p c : Nat), c ∈ discard_set s p →
      (p, c) ∉ navTrace g wcs wf s n := by
  intro n
  induction n with
  | zero => intro s p c _; simp [navTrace]
  | succ m ih =>
    intro s p c hc
    rw [navTrace]
    cases hstep : navStep g wcs wf s with
    | done r => simp
    | next s2 ev =>
      show (p, c) ∉ ev.toList ++ navTrace g wcs wf s2 m
      intro hmem
      rcases List.mem_append.mp hmem with h1 | h1
      · cases ev with
        | none => simp at h1
        | some pc2 =>
          obtain ⟨p2, c2⟩ := pc2
          simp only [Option.toList_some, List.mem_singleton] at h1
          have he := navStep_event g wcs wf s s2 p2 c2 hstep
          have hp : p = p2 := congrArg Prod.fst h1
          have hcc : c = c2 := congrArg Prod.snd h1
          exact he.1 (hp ▸ hcc ▸ hc)
      · exact ih s2 p c
          (navStep_discard_mono g wcs wf s s2 ev hstep p c hc) h1

/-- The (fork point, chosen point) trace of a run has no duplicates. -/
theorem navTrace_nodup (g : NavGraph) (wcs : List WeightCalcN) (wf : Nat) :
    ∀ (n : Nat) (s : NavState), (navTrace g wcs wf s n).Nodup := by
  intro n
  induction n with
  | zero => intro s; simp [navTrace]
  | succ m ih =>
    intro s
    rw [navTrace]
    cases hstep : navStep g wcs wf s with
    | done r => exact List.nodup_nil
    | next s2 ev =>
      show (ev.toList ++ navTrace g wcs wf s2 m).Nodup
      cases ev with
      | none => simpa using ih s2
      | some pc =>
        obtain ⟨p, c⟩ := pc
        simp only [Option.toList_some, List.singleton_append, List.nodup_cons]
        refine ⟨?_, ih s2⟩
        have he := navStep_event g wcs wf s s2 p c hstep
        exact navTrace_not_mem g wcs wf m s2 p c
          (by rw [he.2.1]; exact List.mem_append_right _ (by simp))

/-- C4: discard memory of a navigator run (navigator.rs 36-50 and
179-256). A recording iteration's chosen end-point was not previously
discarded at that fork point, it is recorded (set as the walker's fork
choice in the same step, before the walker moves onto it), the fork
point's set becomes exactly its old value extended by the choice, every
discard set grows monotonically across iterations, and consequently the
(fork point, chosen end-point) pairs of a run never repeat. -/
theorem discard_memory_invariant (g : NavGraph) (wcs : List WeightCalcN)
    (walk_fuel : Nat) :
    (∀ s s2 ev, navStep g wcs walk_fuel s = NavStepOut.next s2 ev →
      ∀ q x, x ∈ discard_set s q → x ∈ discard_set s2 q) ∧
    (∀ s s2 p c,
      navStep g wcs walk_fuel s = NavStepOut.next s2 (some (p, c)) →
      c ∉ discard_set s p ∧
      discard_set s2 p = discard_set s p ++ [c] ∧
      s2.walker.forkChoice = some c) ∧
    (∀ s n, (navTrace g wcs walk_fuel s n).Nodup) := by
  refine ⟨?_, ?_, ?_⟩
  · intro s s2 ev h
    exact navStep_discard_mono g wcs walk_fuel s s2 ev h
  · intro s s2 p c h
    obtain ⟨h1, h2, -, h4⟩ := navStep_event g wcs walk_fuel s s2 p c h
    exact ⟨h1, h2, h4⟩
  · intro s n
    exact navTrace_nodup g wcs walk_fuel n s

/-- Sanity check: on the concrete fork graph, the run records exactly one
fork decision — point 1 chooses end-point 2 — and then finishes. -/
theorem navTrace_fork_example :
    navTrace exNavGraphFork exWeightOne 5 exNavStateFork 5 = [(1, 2)] := by
  decide
